import Mathlib

/-!
Verification development for the qp-trie zone database (`lib/dns/qp-zonedb.c`).

We shallowly embed the data model and the operations of the zone database:
slab-header chains with MVCC `down` stacks, the zone-cut scan, the `zone_find`
exact-match loop and its result classification, wildcard blocking, the loader
callback, the resign heap maintenance, the glue cache, and NSEC3 parameter
introspection.  Headers carry the fields the embedded code reads; the rdata
slab bytes themselves are abstracted (for NSEC3 slabs the outcome of
`matchparams` against the fixed search version is carried as a boolean field).
-/

set_option linter.unusedVariables false

/-! ### DNS rdata types and type pairs -/

/-- DNS RR type codes, as used by the source (`dns_rdatatype_t`). -/
abbrev Rdatatype := Nat

def dns_rdatatype_a : Rdatatype := 1
def dns_rdatatype_ns : Rdatatype := 2
def dns_rdatatype_cname : Rdatatype := 5
def dns_rdatatype_soa : Rdatatype := 6
def dns_rdatatype_key : Rdatatype := 25
def dns_rdatatype_aaaa : Rdatatype := 28
def dns_rdatatype_dname : Rdatatype := 39
def dns_rdatatype_ds : Rdatatype := 43
def dns_rdatatype_rrsig : Rdatatype := 46
def dns_rdatatype_nsec : Rdatatype := 47
def dns_rdatatype_nsec3 : Rdatatype := 50
def dns_rdatatype_any : Rdatatype := 255

/-- A 32-bit type pair `(rrtype, covers)` (`dns_typepair_t`): `covers = 0`
for ordinary sets, and `DNS_SIGTYPE(x) = (RRSIG, x)` for signatures. -/
structure TypePair where
  base : Rdatatype
  covers : Rdatatype
deriving DecidableEq, Repr

/-- `DNS_TYPEPAIR_VALUE(base, 0)`: the type pair of an ordinary rdataset. -/
def pairOf (t : Rdatatype) : TypePair := ⟨t, 0⟩

/-- `DNS_SIGTYPE(t)`: the type pair of the RRSIG covering `t`. -/
def DNS_SIGTYPE (t : Rdatatype) : TypePair := ⟨dns_rdatatype_rrsig, t⟩

/-- Result codes surfaced by the embedded operations
(`isc_result_t` / `dns_result_t` constants used in `qp-zonedb.c`). -/
inductive Res where
  | success
  | notfound
  | cname
  | dname
  | delegation
  | glue
  | zonecut
  | nxdomain
  | nxrrset
  | emptyname
  | emptywild
  | partmatch
  | baddb
  | notzonetop
  | invalidns
  | invalidnsec3
  | unchanged
deriving DecidableEq, Repr

/-! ### Slab headers and MVCC chains -/

/-- One slab header (`dns_slabheader_t`), restricted to the fields the query
paths read: the type pair, the version serial, and the attribute bits
`NONEXISTENT`, `IGNORE`, `ANCIENT`.  `nsec3match` abstracts the result of
`matchparams(header, search)` for NSEC3 slabs against the fixed search
version (it inspects the slab rdata bytes, which we do not model). -/
structure SlabHeader where
  typ : TypePair
  serial : Nat
  nonexistent : Bool := false
  ignore : Bool := false
  ancient : Bool := false
  nsec3match : Bool := true
deriving DecidableEq, Repr

/-- A per-type MVCC stack at a node: the top header followed by its `down`
chain (older serials). -/
abbrev HeaderChain := List SlabHeader

/-- The top header's type of a chain (the type seen on the `next` walk). -/
def chainTopType (c : HeaderChain) : Option TypePair :=
  c.head?.map (·.typ)

/-- The `down`-walk that every reader performs (the repeated
`do { if (serial <= search_serial && !IGNORE) { if NONEXISTENT header = NULL;
break; } else header = header->down; } while (header)` loop): first header
with `serial ≤ s` and not `IGNORE`; a `NONEXISTENT` hit yields nothing. -/
def active_header (s : Nat) : HeaderChain → Option SlabHeader
  | [] => none
  | h :: down =>
    if h.serial ≤ s ∧ h.ignore = false then
      if h.nonexistent then none else some h
    else
      active_header s down

/-- The first header with `serial ≤ s` and not `IGNORE`, kept even when it is
a `NONEXISTENT` tombstone (used to state the claim about tombstones). -/
def first_visible (s : Nat) : HeaderChain → Option SlabHeader
  | [] => none
  | h :: down => if h.serial ≤ s ∧ h.ignore = false then some h else first_visible s down

/-! ### `zone_findrdataset` -/

/-- Accumulator of the `zone_findrdataset` chain walk. -/
structure FindRW where
  found : Option SlabHeader
  foundsig : Option SlabHeader
deriving DecidableEq, Repr

/-- The `for (header = rbtnode->data; ...)` loop of `zone_findrdataset`:
walk the `next` chain, `down`-walk each entry, and remember the first active
header whose type is `matchtype` (resp. `sigmatchtype`), stopping early once
both are known. -/
def findrdataset_loop (s : Nat) (matchtype sigmatchtype : TypePair) :
    List HeaderChain → Option SlabHeader → Option SlabHeader → FindRW
  | [], found, foundsig => ⟨found, foundsig⟩
  | c :: rest, found, foundsig =>
    match active_header s c with
    | none => findrdataset_loop s matchtype sigmatchtype rest found foundsig
    | some h =>
      if h.typ = matchtype then
        if foundsig.isSome then ⟨some h, foundsig⟩
        else findrdataset_loop s matchtype sigmatchtype rest (some h) foundsig
      else if h.typ = sigmatchtype then
        if found.isSome then ⟨found, some h⟩
        else findrdataset_loop s matchtype sigmatchtype rest found (some h)
      else findrdataset_loop s matchtype sigmatchtype rest found foundsig

/-- Output of `zone_findrdataset`: the result code and the headers bound into
`rdataset` / `sigrdataset` (`none` = left untouched). -/
structure FindRdatasetOut where
  result : Res
  rdataset : Option SlabHeader
  sigrdataset : Option SlabHeader
deriving DecidableEq, Repr

/-- `zone_findrdataset(db, node, version, type, covers, ...)` restricted to a
node's chain list and the version serial.  (`REQUIRE(type != ANY)` is a
caller obligation, carried as a hypothesis in theorems.) -/
def zone_findrdataset (data : List HeaderChain) (s : Nat)
    (typ covers : Rdatatype) : FindRdatasetOut :=
  let matchtype : TypePair := ⟨typ, covers⟩
  let sigmatchtype : TypePair := if covers = 0 then DNS_SIGTYPE typ else ⟨0, 0⟩
  let fw := findrdataset_loop s matchtype sigmatchtype data none none
  match fw.found with
  | none => ⟨.notfound, none, none⟩
  | some f => ⟨.success, some f, fw.foundsig⟩

/-- The claim's description of the MVCC find primitive: walk the `next` chain
to the entry of the matching type, then take the first header of its `down`
stack with `serial ≤ s` and not `IGNORE` (tombstone included). -/
def claim_mvcc_find (s : Nat) (matchtype : TypePair) :
    List HeaderChain → Option SlabHeader
  | [] => none
  | c :: rest =>
    if chainTopType c = some matchtype then first_visible s c
    else claim_mvcc_find s matchtype rest

/-! ### Well-formedness of a node's chain list -/

/-- Every header of a chain carries the top header's type (the `down` stack
is per-type; writers only push same-typed headers). -/
def chainUniform (c : HeaderChain) : Prop :=
  ∀ h ∈ c, some h.typ = chainTopType c

/-- A node's chain list is well formed: chains are nonempty, type-uniform,
and carry pairwise distinct types (each type appears once on `next`). -/
def nodeWF (data : List HeaderChain) : Prop :=
  (∀ c ∈ data, c ≠ [] ∧ chainUniform c) ∧
  data.Pairwise (fun c d => chainTopType c ≠ chainTopType d)

instance (c : HeaderChain) : Decidable (chainUniform c) := by
  unfold chainUniform; infer_instance

instance (data : List HeaderChain) : Decidable (nodeWF data) := by
  unfold nodeWF; infer_instance

/-! ### Lemmas about the down-walk -/

lemma active_header_eq_first_visible (s : Nat) (c : HeaderChain) :
    active_header s c =
      (first_visible s c).bind (fun h => if h.nonexistent then none else some h) := by
  induction c with
  | nil => rfl
  | cons h t ih =>
    by_cases hc : h.serial ≤ s ∧ h.ignore = false
    · simp [active_header, first_visible, hc]
    · simp [active_header, first_visible, hc, ih]

lemma active_header_mem {s : Nat} {c : HeaderChain} {h : SlabHeader}
    (hh : active_header s c = some h) : h ∈ c := by
  induction c with
  | nil => simp [active_header] at hh
  | cons a t ih =>
    by_cases hc : a.serial ≤ s ∧ a.ignore = false
    · simp only [active_header, if_pos hc] at hh
      by_cases hn : a.nonexistent <;> simp [hn] at hh
      simp [hh]
    · simp only [active_header, if_neg hc] at hh
      exact List.mem_cons_of_mem _ (ih hh)

lemma first_visible_mem {s : Nat} {c : HeaderChain} {h : SlabHeader}
    (hh : first_visible s c = some h) : h ∈ c := by
  induction c with
  | nil => simp [first_visible] at hh
  | cons a t ih =>
    by_cases hc : a.serial ≤ s ∧ a.ignore = false
    · simp only [first_visible, if_pos hc, Option.some.injEq] at hh
      simp [hh]
    · simp only [first_visible, if_neg hc] at hh
      exact List.mem_cons_of_mem _ (ih hh)

lemma active_typ_of_uniform {s : Nat} {c : HeaderChain} {h : SlabHeader}
    (hu : chainUniform c) (hh : active_header s c = some h) :
    some h.typ = chainTopType c :=
  hu h (active_header_mem hh)

/-! ### Lemmas about the `zone_findrdataset` loop -/

lemma findrdataset_loop_none (s : Nat) (mt st : TypePair)
    (data : List HeaderChain)
    (hno : ∀ c ∈ data, ∀ h, active_header s c = some h → h.typ ≠ mt) :
    ∀ fs, (findrdataset_loop s mt st data none fs).found = none := by
  induction data with
  | nil => intro fs; rfl
  | cons c rest ih =>
    intro fs
    have hrest : ∀ c' ∈ rest, ∀ h, active_header s c' = some h → h.typ ≠ mt :=
      fun c' hc' => hno c' (List.mem_cons_of_mem _ hc')
    cases hac : active_header s c with
    | none => simpa [findrdataset_loop, hac] using ih hrest fs
    | some h =>
      have hne : h.typ ≠ mt := hno c (List.mem_cons_self _ _) h hac
      by_cases hsig : h.typ = st
      · simp only [findrdataset_loop, hac, if_neg hne, if_pos hsig,
          Option.isSome_none, Bool.false_eq_true, if_false]
        exact ih hrest (some h)
      · simpa [findrdataset_loop, hac, hne, hsig] using ih hrest fs

lemma findrdataset_loop_found_stable (s : Nat) (mt st : TypePair)
    (data : List HeaderChain) (f : SlabHeader)
    (hno : ∀ c ∈ data, ∀ h, active_header s c = some h → h.typ ≠ mt) :
    ∀ fs, (findrdataset_loop s mt st data (some f) fs).found = some f := by
  induction data with
  | nil => intro fs; rfl
  | cons c rest ih =>
    intro fs
    have hrest : ∀ c' ∈ rest, ∀ h, active_header s c' = some h → h.typ ≠ mt :=
      fun c' hc' => hno c' (List.mem_cons_of_mem _ hc')
    cases hac : active_header s c with
    | none => simpa [findrdataset_loop, hac] using ih hrest fs
    | some h =>
      have hne : h.typ ≠ mt := hno c (List.mem_cons_self _ _) h hac
      by_cases hsig : h.typ = st
      · simp [findrdataset_loop, hac, if_neg hne, if_pos hsig]
      · simpa [findrdataset_loop, hac, hne, hsig] using ih hrest fs

lemma active_ne_of_top_ne {s : Nat} {c : HeaderChain} {mt : TypePair}
    (hu : chainUniform c) (htop : chainTopType c ≠ some mt) :
    ∀ h, active_header s c = some h → h.typ ≠ mt := by
  intro h hh heq
  exact htop (by rw [← active_typ_of_uniform hu hh, heq])

lemma findrdataset_loop_claim (s : Nat) (mt st : TypePair)
    (data : List HeaderChain) (hWF : nodeWF data) :
    ∀ fs,
      (claim_mvcc_find s mt data = none →
        (findrdataset_loop s mt st data none fs).found = none) ∧
      (∀ h, claim_mvcc_find s mt data = some h →
        (h.nonexistent = true →
          (findrdataset_loop s mt st data none fs).found = none) ∧
        (h.nonexistent = false →
          (findrdataset_loop s mt st data none fs).found = some h)) := by
  induction data with
  | nil =>
    intro fs
    exact ⟨fun _ => rfl, fun h hc => by simp [claim_mvcc_find] at hc⟩
  | cons c rest ih =>
    intro fs
    obtain ⟨hall, hpw⟩ := hWF
    have hc_u : chainUniform c := (hall c (List.mem_cons_self _ _)).2
    have hpw' := List.pairwise_cons.mp hpw
    have hWFrest : nodeWF rest :=
      ⟨fun d hd => hall d (List.mem_cons_of_mem _ hd), hpw'.2⟩
    by_cases htop : chainTopType c = some mt
    · -- the chain of the matching type
      have hnoRest : ∀ c' ∈ rest, ∀ h, active_header s c' = some h → h.typ ≠ mt := by
        intro c' hc' h hh
        have hne : chainTopType c' ≠ some mt := by
          intro he; exact (hpw'.1 c' hc') (htop.trans he.symm)
        exact active_ne_of_top_ne (hall c' (List.mem_cons_of_mem _ hc')).2 hne h hh
      have hclaim : claim_mvcc_find s mt (c :: rest) = first_visible s c := by
        simp [claim_mvcc_find, htop]
      cases hfv : first_visible s c with
      | none =>
        have hac : active_header s c = none := by
          rw [active_header_eq_first_visible, hfv]; rfl
        refine ⟨fun _ => ?_, fun h hc => by rw [hclaim, hfv] at hc; exact absurd hc (by simp)⟩
        simp only [findrdataset_loop, hac]
        exact findrdataset_loop_none s mt st rest hnoRest fs
      | some h =>
        have hmem : h ∈ c := first_visible_mem hfv
        have htyp : h.typ = mt := by
          have hsome := hc_u h hmem
          rw [htop] at hsome
          exact Option.some_injective _ hsome
        refine ⟨fun hcn => ?_, fun h' hc' => ?_⟩
        · rw [hclaim, hfv] at hcn; exact absurd hcn (by simp)
        · rw [hclaim, hfv] at hc'
          have he : h = h' := by injection hc'
          subst he
          constructor
          · intro hnx
            have hac : active_header s c = none := by
              rw [active_header_eq_first_visible, hfv]; simp [hnx]
            simp only [findrdataset_loop, hac]
            exact findrdataset_loop_none s mt st rest hnoRest fs
          · intro hnx
            have hac : active_header s c = some h := by
              rw [active_header_eq_first_visible, hfv]; simp [hnx]
            cases fs with
            | none =>
              simp only [findrdataset_loop, hac, if_pos htyp, Option.isSome_none,
                Bool.false_eq_true, if_false]
              exact findrdataset_loop_found_stable s mt st rest h hnoRest none
            | some g =>
              simp [findrdataset_loop, hac, if_pos htyp]
    · -- a chain of some other type
      have hclaim : claim_mvcc_find s mt (c :: rest) = claim_mvcc_find s mt rest := by
        simp [claim_mvcc_find, htop]
      have hne := @active_ne_of_top_ne s c mt hc_u htop
      cases hac : active_header s c with
      | none =>
        refine ⟨fun hcn => ?_, fun h hc' => ?_⟩
        · simp only [findrdataset_loop, hac]
          exact (ih hWFrest fs).1 (hclaim ▸ hcn)
        · simp only [findrdataset_loop, hac]
          exact (ih hWFrest fs).2 h (hclaim ▸ hc')
      | some h =>
        have hh := hne h hac
        by_cases hsig : h.typ = st
        · refine ⟨fun hcn => ?_, fun h' hc' => ?_⟩
          · simp only [findrdataset_loop, hac, if_neg hh, if_pos hsig,
              Option.isSome_none, Bool.false_eq_true, if_false]
            exact (ih hWFrest (some h)).1 (hclaim ▸ hcn)
          · simp only [findrdataset_loop, hac, if_neg hh, if_pos hsig,
              Option.isSome_none, Bool.false_eq_true, if_false]
            exact (ih hWFrest (some h)).2 h' (hclaim ▸ hc')
        · refine ⟨fun hcn => ?_, fun h' hc' => ?_⟩
          · simp only [findrdataset_loop, hac, if_neg hh, if_neg hsig]
            exact (ih hWFrest fs).1 (hclaim ▸ hcn)
          · simp only [findrdataset_loop, hac, if_neg hh, if_neg hsig]
            exact (ih hWFrest fs).2 h' (hclaim ▸ hc')

/-- C1: for a node's chain list, a type pair `(type, covers)` with
`type ≠ ANY` and a search serial `s`, `zone_findrdataset` behaves as the
MVCC find primitive of the claim: walking the `next` chain to the entry of
the matching type and its `down` chain to the first header with
`serial ≤ s` and no `IGNORE`; a `NONEXISTENT` hit yields `ISC_R_NOTFOUND`
with nothing bound, otherwise that header is bound into `rdataset` and the
result is `ISC_R_SUCCESS`. -/
theorem zone_findrdataset_follows_mvcc_claim (data : List HeaderChain)
    (s : Nat) (typ covers : Rdatatype) (hWF : nodeWF data)
    (hany : typ ≠ dns_rdatatype_any) :
    (claim_mvcc_find s ⟨typ, covers⟩ data = none →
      zone_findrdataset data s typ covers = ⟨.notfound, none, none⟩) ∧
    (∀ h, claim_mvcc_find s ⟨typ, covers⟩ data = some h →
      (h.nonexistent = true →
        zone_findrdataset data s typ covers = ⟨.notfound, none, none⟩) ∧
      (h.nonexistent = false →
        (zone_findrdataset data s typ covers).result = .success ∧
        (zone_findrdataset data s typ covers).rdataset = some h)) := by
  have L := findrdataset_loop_claim s ⟨typ, covers⟩
    (if covers = 0 then DNS_SIGTYPE typ else ⟨0, 0⟩) data hWF none
  refine ⟨fun hcn => ?_, fun h hc => ⟨fun hnx => ?_, fun hnx => ?_⟩⟩
  · have hf := L.1 hcn
    simp [zone_findrdataset, hf]
  · have hf := (L.2 h hc).1 hnx
    simp [zone_findrdataset, hf]
  · have hf := (L.2 h hc).2 hnx
    simp [zone_findrdataset, hf]

/-- Witness for C1: a concrete node with an `A` MVCC stack
(serial 2 above serial 1) and its RRSIG chain; a reader at serial 1 gets
the serial-1 header bound with `ISC_R_SUCCESS`. -/
theorem zone_findrdataset_follows_mvcc_claim_witness :
    nodeWF [[⟨⟨1, 0⟩, 2, false, false, false, true⟩,
             ⟨⟨1, 0⟩, 1, false, false, false, true⟩],
            [⟨⟨46, 1⟩, 1, false, false, false, true⟩]] ∧
    claim_mvcc_find 1 ⟨1, 0⟩
        [[⟨⟨1, 0⟩, 2, false, false, false, true⟩,
          ⟨⟨1, 0⟩, 1, false, false, false, true⟩],
         [⟨⟨46, 1⟩, 1, false, false, false, true⟩]] =
      some ⟨⟨1, 0⟩, 1, false, false, false, true⟩ ∧
    (zone_findrdataset
        [[⟨⟨1, 0⟩, 2, false, false, false, true⟩,
          ⟨⟨1, 0⟩, 1, false, false, false, true⟩],
         [⟨⟨46, 1⟩, 1, false, false, false, true⟩]] 1 1 0).result = .success ∧
    (zone_findrdataset
        [[⟨⟨1, 0⟩, 2, false, false, false, true⟩,
          ⟨⟨1, 0⟩, 1, false, false, false, true⟩],
         [⟨⟨46, 1⟩, 1, false, false, false, true⟩]] 1 1 0).rdataset =
      some ⟨⟨1, 0⟩, 1, false, false, false, true⟩ :=
  ⟨by decide, by decide,
   ((zone_findrdataset_follows_mvcc_claim _ 1 1 0 (by decide) (by decide)).2
      _ (by decide)).2 (by decide)⟩

/-! ### `check_zonecut` and `setup_delegation` -/

/-- The NS / DNAME / RRSIG(DNAME) candidates collected by the
`check_zonecut` header loop. -/
structure ZoneCutSel where
  ns_header : Option SlabHeader := none
  dname_header : Option SlabHeader := none
  sigdname_header : Option SlabHeader := none
deriving DecidableEq, Repr

/-- One iteration of the `check_zonecut` header loop: enter only for NS,
DNAME or RRSIG(DNAME) chain tops, `down`-walk, then dispatch on the found
header's type; the NS fallback is taken only away from the origin node of a
non-stub database (`node != onode || IS_STUB`). -/
def check_zonecut_step (s : Nat) (is_stub node_is_origin : Bool)
    (c : HeaderChain) (acc : ZoneCutSel) : ZoneCutSel :=
  if chainTopType c = some (pairOf dns_rdatatype_ns) ∨
     chainTopType c = some (pairOf dns_rdatatype_dname) ∨
     chainTopType c = some (DNS_SIGTYPE dns_rdatatype_dname) then
    match active_header s c with
    | none => acc
    | some h =>
      if h.typ = pairOf dns_rdatatype_dname then
        { acc with dname_header := some h }
      else if h.typ = DNS_SIGTYPE dns_rdatatype_dname then
        { acc with sigdname_header := some h }
      else if node_is_origin = false ∨ is_stub = true then
        { acc with ns_header := some h }
      else acc
  else acc

/-- The full `check_zonecut` header loop over a node's chain list. -/
def check_zonecut_scan (s : Nat) (is_stub node_is_origin : Bool) :
    List HeaderChain → ZoneCutSel → ZoneCutSel
  | [], acc => acc
  | c :: rest, acc =>
    check_zonecut_scan s is_stub node_is_origin rest
      (check_zonecut_step s is_stub node_is_origin c acc)

/-- The selection at the end of `check_zonecut`: non-stub NS wins over
DNAME; otherwise DNAME wins over NS; the selected zonecut header and the
accompanying signature header (`search->zonecut_sigheader`). -/
def check_zonecut_found (is_stub : Bool) (sel : ZoneCutSel) :
    Option (SlabHeader × Option SlabHeader) :=
  if is_stub = false ∧ sel.ns_header.isSome then
    sel.ns_header.map (fun h => (h, none))
  else
    match sel.dname_header with
    | some hd => some (hd, sel.sigdname_header)
    | none =>
      match sel.ns_header with
      | some h => some (h, none)
      | none => none

/-- `check_zonecut` on one node: the selected zonecut header, if any. -/
def check_zonecut (s : Nat) (is_stub node_is_origin : Bool)
    (data : List HeaderChain) : Option (SlabHeader × Option SlabHeader) :=
  check_zonecut_found is_stub
    (check_zonecut_scan s is_stub node_is_origin data ⟨none, none, none⟩)

/-- The result code computed by `setup_delegation` from the zonecut
header's type. -/
def setup_delegation_result (t : TypePair) : Res :=
  if t = pairOf dns_rdatatype_dname then .dname else .delegation


/-- Abbreviation for the entry guard of the `check_zonecut` loop. -/
def czcGuard (c : HeaderChain) : Prop :=
  chainTopType c = some (pairOf dns_rdatatype_ns) ∨
  chainTopType c = some (pairOf dns_rdatatype_dname) ∨
  chainTopType c = some (DNS_SIGTYPE dns_rdatatype_dname)

instance (c : HeaderChain) : Decidable (czcGuard c) := by
  unfold czcGuard; infer_instance

lemma czc_step_skip {s : Nat} {st og : Bool} {c : HeaderChain}
    (hg : ¬ czcGuard c) (acc : ZoneCutSel) :
    check_zonecut_step s st og c acc = acc := by
  unfold check_zonecut_step czcGuard at *
  rw [if_neg hg]

lemma czc_step_inactive {s : Nat} {st og : Bool} {c : HeaderChain}
    (hac : active_header s c = none) (acc : ZoneCutSel) :
    check_zonecut_step s st og c acc = acc := by
  unfold check_zonecut_step
  by_cases hg : chainTopType c = some (pairOf dns_rdatatype_ns) ∨
      chainTopType c = some (pairOf dns_rdatatype_dname) ∨
      chainTopType c = some (DNS_SIGTYPE dns_rdatatype_dname)
  · rw [if_pos hg, hac]
  · rw [if_neg hg]

lemma czc_step_active {s : Nat} {st og : Bool} {c : HeaderChain}
    {h : SlabHeader} (hg : czcGuard c) (hac : active_header s c = some h)
    (acc : ZoneCutSel) :
    check_zonecut_step s st og c acc =
      (if h.typ = pairOf dns_rdatatype_dname then
        { acc with dname_header := some h }
      else if h.typ = DNS_SIGTYPE dns_rdatatype_dname then
        { acc with sigdname_header := some h }
      else if og = false ∨ st = true then
        { acc with ns_header := some h }
      else acc) := by
  unfold check_zonecut_step czcGuard at *
  rw [if_pos hg, hac]

lemma czc_step_ns_of_not_ns {s : Nat} {st og : Bool} {c : HeaderChain}
    (hu : chainUniform c)
    (hne : chainTopType c ≠ some (pairOf dns_rdatatype_ns)) (acc : ZoneCutSel) :
    (check_zonecut_step s st og c acc).ns_header = acc.ns_header := by
  by_cases hg : czcGuard c
  · cases hac : active_header s c with
    | none => rw [czc_step_inactive hac]
    | some h =>
      rw [czc_step_active hg hac]
      have htyp := active_typ_of_uniform hu hac
      rcases hg with hg | hg | hg
      · exact absurd hg hne
      · rw [hg] at htyp
        have h1 : h.typ = pairOf dns_rdatatype_dname := Option.some_injective _ htyp
        rw [if_pos h1]
      · rw [hg] at htyp
        have h1 : h.typ = DNS_SIGTYPE dns_rdatatype_dname := Option.some_injective _ htyp
        have h2 : h.typ ≠ pairOf dns_rdatatype_dname := by rw [h1]; decide
        rw [if_neg h2, if_pos h1]
  · rw [czc_step_skip hg]

lemma czc_scan_ns_of_not_ns {s : Nat} {st og : Bool} {data : List HeaderChain}
    (h : ∀ c ∈ data, chainUniform c ∧
      chainTopType c ≠ some (pairOf dns_rdatatype_ns)) :
    ∀ acc, (check_zonecut_scan s st og data acc).ns_header = acc.ns_header := by
  induction data with
  | nil => intro acc; rfl
  | cons c rest ih =>
    intro acc
    have hc := h c (List.mem_cons_self _ _)
    rw [check_zonecut_scan, ih (fun d hd => h d (List.mem_cons_of_mem _ hd)),
      czc_step_ns_of_not_ns hc.1 hc.2]

lemma czc_step_dname_of_not_dname {s : Nat} {st og : Bool} {c : HeaderChain}
    (hu : chainUniform c)
    (hne : chainTopType c ≠ some (pairOf dns_rdatatype_dname)) (acc : ZoneCutSel) :
    (check_zonecut_step s st og c acc).dname_header = acc.dname_header := by
  by_cases hg : czcGuard c
  · cases hac : active_header s c with
    | none => rw [czc_step_inactive hac]
    | some h =>
      rw [czc_step_active hg hac]
      have htyp := active_typ_of_uniform hu hac
      rcases hg with hg | hg | hg
      · rw [hg] at htyp
        have h1 : h.typ = pairOf dns_rdatatype_ns := Option.some_injective _ htyp
        have h2 : h.typ ≠ pairOf dns_rdatatype_dname := by rw [h1]; decide
        have h3 : h.typ ≠ DNS_SIGTYPE dns_rdatatype_dname := by rw [h1]; decide
        rw [if_neg h2, if_neg h3]
        by_cases h4 : og = false ∨ st = true
        · rw [if_pos h4]
        · rw [if_neg h4]
      · exact absurd hg hne
      · rw [hg] at htyp
        have h1 : h.typ = DNS_SIGTYPE dns_rdatatype_dname := Option.some_injective _ htyp
        have h2 : h.typ ≠ pairOf dns_rdatatype_dname := by rw [h1]; decide
        rw [if_neg h2, if_pos h1]
  · rw [czc_step_skip hg]

lemma czc_scan_dname_of_not_dname {s : Nat} {st og : Bool}
    {data : List HeaderChain}
    (h : ∀ c ∈ data, chainUniform c ∧
      chainTopType c ≠ some (pairOf dns_rdatatype_dname)) :
    ∀ acc, (check_zonecut_scan s st og data acc).dname_header = acc.dname_header := by
  induction data with
  | nil => intro acc; rfl
  | cons c rest ih =>
    intro acc
    have hc := h c (List.mem_cons_self _ _)
    rw [check_zonecut_scan, ih (fun d hd => h d (List.mem_cons_of_mem _ hd)),
      czc_step_dname_of_not_dname hc.1 hc.2]

lemma czc_scan_ns_sets {s : Nat} {st og : Bool} {c : HeaderChain}
    {h : SlabHeader} (htop : chainTopType c = some (pairOf dns_rdatatype_ns))
    (hac : active_header s c = some h) (hok : og = false ∨ st = true) :
    ∀ data, nodeWF data → c ∈ data →
      ∀ acc, (check_zonecut_scan s st og data acc).ns_header = some h := by
  intro data
  induction data with
  | nil => intro _ hc; cases hc
  | cons c0 rest ih =>
    intro hWF hc acc
    obtain ⟨hall, hpw⟩ := hWF
    have hpw' := List.pairwise_cons.mp hpw
    by_cases h0 : chainTopType c0 = some (pairOf dns_rdatatype_ns)
    · have hceq : c = c0 := by
        rcases List.mem_cons.mp hc with he | he
        · exact he
        · exact absurd (h0.trans htop.symm) (hpw'.1 c he)
      subst hceq
      have hu : chainUniform c := (hall c (List.mem_cons_self _ _)).2
      have htyp := active_typ_of_uniform hu hac
      rw [htop] at htyp
      have h1 : h.typ = pairOf dns_rdatatype_ns := Option.some_injective _ htyp
      have h2 : h.typ ≠ pairOf dns_rdatatype_dname := by rw [h1]; decide
      have h3 : h.typ ≠ DNS_SIGTYPE dns_rdatatype_dname := by rw [h1]; decide
      rw [check_zonecut_scan,
        czc_scan_ns_of_not_ns (fun d hd =>
          ⟨(hall d (List.mem_cons_of_mem _ hd)).2,
           fun he => (hpw'.1 d hd) (htop.trans he.symm)⟩),
        czc_step_active (Or.inl htop) hac, if_neg h2, if_neg h3, if_pos hok]
    · have hcr : c ∈ rest := by
        rcases List.mem_cons.mp hc with he | he
        · exact absurd (he ▸ htop) h0
        · exact he
      rw [check_zonecut_scan]
      exact ih ⟨fun d hd => hall d (List.mem_cons_of_mem _ hd), hpw'.2⟩ hcr _

lemma czc_scan_dname_sets {s : Nat} {st og : Bool} {c : HeaderChain}
    {h : SlabHeader}
    (htop : chainTopType c = some (pairOf dns_rdatatype_dname))
    (hac : active_header s c = some h) :
    ∀ data, nodeWF data → c ∈ data →
      ∀ acc, (check_zonecut_scan s st og data acc).dname_header = some h := by
  intro data
  induction data with
  | nil => intro _ hc; cases hc
  | cons c0 rest ih =>
    intro hWF hc acc
    obtain ⟨hall, hpw⟩ := hWF
    have hpw' := List.pairwise_cons.mp hpw
    by_cases h0 : chainTopType c0 = some (pairOf dns_rdatatype_dname)
    · have hceq : c = c0 := by
        rcases List.mem_cons.mp hc with he | he
        · exact he
        · exact absurd (h0.trans htop.symm) (hpw'.1 c he)
      subst hceq
      have hu : chainUniform c := (hall c (List.mem_cons_self _ _)).2
      have htyp := active_typ_of_uniform hu hac
      rw [htop] at htyp
      have h1 : h.typ = pairOf dns_rdatatype_dname := Option.some_injective _ htyp
      rw [check_zonecut_scan,
        czc_scan_dname_of_not_dname (fun d hd =>
          ⟨(hall d (List.mem_cons_of_mem _ hd)).2,
           fun he => (hpw'.1 d hd) (htop.trans he.symm)⟩),
        czc_step_active (Or.inr (Or.inl htop)) hac, if_pos h1]
    · have hcr : c ∈ rest := by
        rcases List.mem_cons.mp hc with he | he
        · exact absurd (he ▸ htop) h0
        · exact he
      rw [check_zonecut_scan]
      exact ih ⟨fun d hd => hall d (List.mem_cons_of_mem _ hd), hpw'.2⟩ hcr _

lemma czc_scan_ns_none_at_origin {s : Nat} {data : List HeaderChain} :
    ∀ acc, (check_zonecut_scan s false true data acc).ns_header = acc.ns_header := by
  induction data with
  | nil => intro acc; rfl
  | cons c rest ih =>
    intro acc
    rw [check_zonecut_scan, ih]
    by_cases hg : czcGuard c
    · cases hac : active_header s c with
      | none => rw [czc_step_inactive hac]
      | some h =>
        rw [czc_step_active hg hac]
        by_cases h1 : h.typ = pairOf dns_rdatatype_dname
        · rw [if_pos h1]
        · rw [if_neg h1]
          by_cases h2 : h.typ = DNS_SIGTYPE dns_rdatatype_dname
          · rw [if_pos h2]
          · rw [if_neg h2, if_neg (by decide :
              ¬((true : Bool) = false ∨ (false : Bool) = true))]
    · rw [czc_step_skip hg]

lemma czc_scan_dname_typ {s : Nat} {st og : Bool} {data : List HeaderChain} :
    ∀ acc : ZoneCutSel,
      (∀ g, acc.dname_header = some g → g.typ = pairOf dns_rdatatype_dname) →
      ∀ g, (check_zonecut_scan s st og data acc).dname_header = some g →
        g.typ = pairOf dns_rdatatype_dname := by
  induction data with
  | nil => intro acc hinv g hg; exact hinv g hg
  | cons c rest ih =>
    intro acc hinv g hg
    rw [check_zonecut_scan] at hg
    refine ih _ ?_ g hg
    intro g' hg'
    by_cases hguard : czcGuard c
    · cases hac : active_header s c with
      | none =>
        rw [czc_step_inactive hac] at hg'
        exact hinv g' hg'
      | some h =>
        rw [czc_step_active hguard hac] at hg'
        by_cases h1 : h.typ = pairOf dns_rdatatype_dname
        · rw [if_pos h1] at hg'
          have : some h = some g' := hg'
          have he : h = g' := Option.some_injective _ this
          rw [← he]; exact h1
        · rw [if_neg h1] at hg'
          by_cases h2 : h.typ = DNS_SIGTYPE dns_rdatatype_dname
          · rw [if_pos h2] at hg'
            exact hinv g' hg'
          · rw [if_neg h2] at hg'
            by_cases h3 : og = false ∨ st = true
            · rw [if_pos h3] at hg'
              exact hinv g' hg'
            · rw [if_neg h3] at hg'
              exact hinv g' hg'
    · rw [czc_step_skip hguard] at hg'
      exact hinv g' hg'

/-- C2: zone-cut precedence at a node.  (a) In a non-stub database, an NS
header active at the search serial at a non-origin node is selected as the
zonecut header and `setup_delegation` returns `DNS_R_DELEGATION` for it;
(b) when no NS header was selected but an active DNAME exists, the DNAME
header is selected and the result is `DNS_R_DNAME`; (c) at the origin node
of a non-stub database the selected zonecut header is never an NS header
(only a DNAME can be selected). -/
theorem check_zonecut_precedence (s : Nat) (is_stub node_is_origin : Bool)
    (data : List HeaderChain) (hWF : nodeWF data) :
    (is_stub = false → node_is_origin = false →
      ∀ c ∈ data, chainTopType c = some (pairOf dns_rdatatype_ns) →
        ∀ h, active_header s c = some h →
          check_zonecut s is_stub node_is_origin data = some (h, none) ∧
          setup_delegation_result h.typ = .delegation) ∧
    ((check_zonecut_scan s is_stub node_is_origin data
        ⟨none, none, none⟩).ns_header = none →
      ∀ c ∈ data, chainTopType c = some (pairOf dns_rdatatype_dname) →
        ∀ h, active_header s c = some h →
          check_zonecut s is_stub node_is_origin data =
            some (h, (check_zonecut_scan s is_stub node_is_origin data
              ⟨none, none, none⟩).sigdname_header) ∧
          setup_delegation_result h.typ = .dname) ∧
    (is_stub = false → node_is_origin = true →
      ∀ f sg, check_zonecut s is_stub node_is_origin data = some (f, sg) →
        f.typ = pairOf dns_rdatatype_dname) := by
  refine ⟨?_, ?_, ?_⟩
  · intro hstub horig c hc htop h hac
    subst hstub; subst horig
    have hns := @czc_scan_ns_sets s false false c h htop hac (Or.inl rfl)
      data hWF hc (⟨none, none, none⟩ : ZoneCutSel)
    have htyp : h.typ = pairOf dns_rdatatype_ns := by
      have hu : chainUniform c := (hWF.1 c hc).2
      have := active_typ_of_uniform hu hac
      rw [htop] at this
      exact Option.some_injective _ this
    constructor
    · unfold check_zonecut check_zonecut_found
      rw [hns]
      simp
    · rw [setup_delegation_result, htyp, if_neg (by decide :
        ¬(pairOf dns_rdatatype_ns = pairOf dns_rdatatype_dname))]
  · intro hns c hc htop h hac
    have hd := @czc_scan_dname_sets s is_stub node_is_origin c h htop hac
      data hWF hc (⟨none, none, none⟩ : ZoneCutSel)
    have htyp : h.typ = pairOf dns_rdatatype_dname := by
      have hu : chainUniform c := (hWF.1 c hc).2
      have := active_typ_of_uniform hu hac
      rw [htop] at this
      exact Option.some_injective _ this
    constructor
    · unfold check_zonecut check_zonecut_found
      rw [hns, hd]
      simp
    · rw [setup_delegation_result, if_pos htyp]
  · intro hstub horig f sg hfound
    subst hstub; subst horig
    have hns := @czc_scan_ns_none_at_origin s data
      (⟨none, none, none⟩ : ZoneCutSel)
    unfold check_zonecut check_zonecut_found at hfound
    rw [hns] at hfound
    simp only [Option.isSome_none, Bool.false_eq_true, and_false, if_false] at hfound
    cases hd : (check_zonecut_scan s false true data
        ⟨none, none, none⟩).dname_header with
    | none =>
      rw [hd] at hfound
      simp at hfound
    | some g =>
      rw [hd] at hfound
      have hg : g.typ = pairOf dns_rdatatype_dname :=
        czc_scan_dname_typ (⟨none, none, none⟩ : ZoneCutSel) (by intro g' h'; cases h') g hd
      have : f = g := by
        have : some (g, (check_zonecut_scan s false true data
            ⟨none, none, none⟩).sigdname_header) = some (f, sg) := hfound
        have h2 := Option.some_injective _ this
        exact (congrArg Prod.fst h2).symm
      rw [this]; exact hg

/-- Witness for C2: a node carrying active NS and DNAME chains at serial 1
in a non-stub database away from the origin selects the NS header and
produces `DNS_R_DELEGATION`. -/
theorem check_zonecut_precedence_witness :
    nodeWF [[(⟨⟨2, 0⟩, 1, false, false, false, true⟩ : SlabHeader)],
            [⟨⟨39, 0⟩, 1, false, false, false, true⟩]] ∧
    check_zonecut 1 false false
        [[⟨⟨2, 0⟩, 1, false, false, false, true⟩],
         [⟨⟨39, 0⟩, 1, false, false, false, true⟩]] =
      some (⟨⟨2, 0⟩, 1, false, false, false, true⟩, none) ∧
    setup_delegation_result (⟨2, 0⟩ : TypePair) = .delegation :=
  have hp := (check_zonecut_precedence 1 false false
      [[⟨⟨2, 0⟩, 1, false, false, false, true⟩],
       [⟨⟨39, 0⟩, 1, false, false, false, true⟩]] (by decide)).1
      rfl rfl [⟨⟨2, 0⟩, 1, false, false, false, true⟩] (by decide) (by decide)
      ⟨⟨2, 0⟩, 1, false, false, false, true⟩ (by decide)
  ⟨by decide, hp.1, hp.2⟩

/-! ### The `zone_find` exact-match scan and result classification -/

/-- The zonecut recorded in a search (`search->zonecut`,
`search->zonecut_header`, `search->zonecut_sigheader`); `at_node` says
whether the zonecut node is the node whose chain is being scanned
(`search.zonecut == node`, i.e. `at_zonecut`). -/
structure ZonecutInfo where
  header : SlabHeader
  sig : Option SlabHeader
  at_node : Bool
deriving DecidableEq, Repr

/-- The inputs of the exact-match scan that stay fixed during the loop. -/
structure ZfParams where
  serial : Nat
  typ : Rdatatype
  cname_ok : Bool
  glueok : Bool
  havensec3 : Bool
deriving DecidableEq, Repr

/-- The mutable state of the `zone_find` exact-match header loop
(lines 1126-1286 of `qp-zonedb.c`). -/
structure ZfState where
  found : Option SlabHeader := none
  foundsig : Option SlabHeader := none
  nsecheader : Option SlabHeader := none
  nsecsig : Option SlabHeader := none
  cnamesig : Option SlabHeader := none
  empty_node : Bool := true
  sigtype : TypePair
  maybe_zonecut : Bool
  zonecut : Option ZonecutInfo
deriving DecidableEq, Repr

/-- Outcome of one loop iteration: continue, `break`, or
`goto partial_match` (the NSEC3 `matchparams` mismatch). -/
inductive ZfStep where
  | cont (st : ZfState)
  | brk (st : ZfState)
  | toPartial (st : ZfState)
deriving DecidableEq, Repr

/-- The state carried by a step outcome. -/
def ZfStep.state : ZfStep → ZfState
  | .cont st => st
  | .brk st => st
  | .toPartial st => st

/-- The part of the loop body after the zone-cut handling: the NSEC3
`matchparams` check, then the
`type == type || ANY || (CNAME && cname_ok)` / `sigtype` / NSEC /
RRSIG(NSEC) / RRSIG(CNAME) dispatch. -/
def zone_find_step_rest (p : ZfParams) (h : SlabHeader) (st : ZfState) : ZfStep :=
  if h.typ = pairOf dns_rdatatype_nsec3 ∧ h.nsec3match = false then
    .toPartial st
  else if h.typ = ⟨p.typ, 0⟩ ∨ p.typ = dns_rdatatype_any ∨
      (h.typ = pairOf dns_rdatatype_cname ∧ p.cname_ok = true) then
    -- `found = header`; on a CNAME match reuse a remembered RRSIG(CNAME) or
    -- switch `sigtype`; then `if (!maybe_zonecut && foundsig != NULL) break`
    if h.typ = pairOf dns_rdatatype_cname ∧ p.cname_ok = true then
      match st.cnamesig with
      | some cs =>
        if st.maybe_zonecut = false then
          .brk { st with found := some h, foundsig := some cs }
        else .cont { st with found := some h, foundsig := some cs }
      | none =>
        if st.maybe_zonecut = false ∧ st.foundsig.isSome then
          .brk { st with found := some h,
                         sigtype := DNS_SIGTYPE dns_rdatatype_cname }
        else .cont { st with found := some h,
                             sigtype := DNS_SIGTYPE dns_rdatatype_cname }
    else
      if st.maybe_zonecut = false ∧ st.foundsig.isSome then
        .brk { st with found := some h }
      else .cont { st with found := some h }
  else if h.typ = st.sigtype then
    -- `foundsig = header`; `if (!maybe_zonecut && found != NULL) break`
    if st.maybe_zonecut = false ∧ st.found.isSome then
      .brk { st with foundsig := some h }
    else .cont { st with foundsig := some h }
  else if h.typ = pairOf dns_rdatatype_nsec ∧ p.havensec3 = false then
    .cont { st with nsecheader := some h }
  else if h.typ = DNS_SIGTYPE dns_rdatatype_nsec ∧ p.havensec3 = false then
    .cont { st with nsecsig := some h }
  else if p.cname_ok = true ∧ h.typ = DNS_SIGTYPE dns_rdatatype_cname then
    .cont { st with cnamesig := some h }
  else .cont st

/-- One iteration of the exact-match loop on an active header `h`:
`empty_node = false`, the `maybe_zonecut && type == NS` zone-cut recording
(with the `GLUEOK`-clear early delegation `break` and the
found-and-foundsig `break`), then the rest of the body. -/
def zone_find_step (p : ZfParams) (h : SlabHeader) (st : ZfState) : ZfStep :=
  if st.maybe_zonecut = true ∧ h.typ = pairOf dns_rdatatype_ns then
    if p.glueok = false ∧ p.typ ≠ dns_rdatatype_nsec ∧
        p.typ ≠ dns_rdatatype_key then
      .brk { st with empty_node := false, maybe_zonecut := false,
                     zonecut := some ⟨h, none, true⟩, found := none }
    else if st.found.isSome ∧ st.foundsig.isSome then
      .brk { st with empty_node := false, maybe_zonecut := false,
                     zonecut := some ⟨h, none, true⟩ }
    else
      zone_find_step_rest p h
        { st with empty_node := false, maybe_zonecut := false,
                  zonecut := some ⟨h, none, true⟩ }
  else zone_find_step_rest p h { st with empty_node := false }

/-- Outcome of the whole scan: fell off the chain or `break` (`done`), or
`goto partial_match` from the NSEC3 mismatch. -/
inductive ZfScanOut where
  | done (st : ZfState)
  | toPartial (st : ZfState)
deriving DecidableEq, Repr

/-- The `for (header = node->data; ...)` loop of `zone_find`'s exact-match
section: `down`-walk each chain and run the body on each active header. -/
def zone_find_scan (p : ZfParams) : List HeaderChain → ZfState → ZfScanOut
  | [], st => .done st
  | c :: rest, st =>
    match active_header p.serial c with
    | none => zone_find_scan p rest st
    | some h =>
      match zone_find_step p h st with
      | .cont st' => zone_find_scan p rest st'
      | .brk st' => .done st'
      | .toPartial st' => .toPartial st'

/-- Result of the exact-match part of `zone_find`: an answer (result code
plus the headers bound into `rdataset`/`sigrdataset`), a
`goto partial_match`, or the wildcard secure-zone path that tail-calls
`find_closest_nsec` and yields `DNS_R_EMPTYWILD`. -/
inductive ZfOut where
  | answer (result : Res) (rdataset sigrdataset : Option SlabHeader)
  | gotoPartial (st : ZfState)
  | closestNsec
deriving DecidableEq, Repr

/-- The classification after the scan (lines 1288-1437): empty-node partial
match, the no-answer branch (delegation / BADDB / closest-NSEC / NXRRSET),
the CNAME-substitution result, the under-a-zonecut results and plain
success, and the rdataset binding for non-ANY queries. -/
def zone_find_tail (p : ZfParams) (wild secure : Bool) (st : ZfState) : ZfOut :=
  if st.empty_node = true ∧ wild = false then .gotoPartial st
  else
    match st.found with
    | none =>
      match st.zonecut with
      | some zc =>
        .answer (setup_delegation_result zc.header.typ) (some zc.header) zc.sig
      | none =>
        if secure = true ∧ p.havensec3 = false ∧
            (st.nsecheader = none ∨ st.nsecsig = none) then
          if wild = false then .answer .baddb none none
          else .closestNsec
        else
          .answer .nxrrset
            (if secure = true ∧ p.havensec3 = false then st.nsecheader else none)
            (if secure = true ∧ p.havensec3 = false then st.nsecsig else none)
    | some f =>
      let result :=
        if f.typ ≠ ⟨p.typ, 0⟩ ∧ p.typ ≠ dns_rdatatype_any ∧
            f.typ = pairOf dns_rdatatype_cname then
          Res.cname
        else
          match st.zonecut with
          | some zc =>
            if zc.at_node = true then
              if p.typ = dns_rdatatype_nsec ∨ p.typ = dns_rdatatype_nsec3 ∨
                  p.typ = dns_rdatatype_key then .success
              else if p.typ = dns_rdatatype_any then .zonecut
              else .glue
            else .glue
          | none => .success
      .answer result
        (if p.typ = dns_rdatatype_any then none else some f)
        (if p.typ = dns_rdatatype_any then none else st.foundsig)

/-- Modelled from the spec: `dns_rdatatype_atparent` (the rdatatype table
is outside this repository); per the spec, parent-side types are the DS
records that "live above the zone cut". -/
def dns_rdatatype_atparent (t : Rdatatype) : Bool := t = dns_rdatatype_ds

/-- The scan parameters as computed at the head of the exact-match section:
`cname_ok` is cleared beneath an ancestor zonecut and for the DNSSEC types
KEY and NSEC. -/
def mkZfParams (serial : Nat) (typ : Rdatatype) (glueok havensec3 : Bool)
    (anc : Option (SlabHeader × Option SlabHeader)) : ZfParams :=
  ⟨serial, typ,
   if anc.isSome then false
   else if typ = dns_rdatatype_key ∨ typ = dns_rdatatype_nsec then false
   else true,
   glueok, havensec3⟩

/-- The initial scan state: `sigtype = RRSIG(type)`, `maybe_zonecut` per
lines 1103-1108 (`find_callback && ((node != origin && !atparent(type)) ||
stub)`, only without an ancestor zonecut), and the ancestor zonecut, if
any, recorded with `at_node = false`. -/
def zfInit (typ : Rdatatype) (anc : Option (SlabHeader × Option SlabHeader))
    (find_callback node_is_origin is_stub : Bool) : ZfState :=
  { sigtype := DNS_SIGTYPE typ,
    maybe_zonecut := anc.isNone && find_callback &&
      ((!node_is_origin && !dns_rdatatype_atparent typ) || is_stub),
    zonecut := anc.map (fun z => ⟨z.1, z.2, false⟩) }

/-- The exact-match part of `zone_find` on one node: scan the chain list,
then classify. -/
def zone_find_exact (serial : Nat) (typ : Rdatatype)
    (glueok secure havensec3 : Bool)
    (is_stub node_is_origin find_callback wild : Bool)
    (anc : Option (SlabHeader × Option SlabHeader))
    (data : List HeaderChain) : ZfOut :=
  let p := mkZfParams serial typ glueok havensec3 anc
  match zone_find_scan p data
      (zfInit typ anc find_callback node_is_origin is_stub) with
  | .done st => zone_find_tail p wild secure st
  | .toPartial st => .gotoPartial st

lemma zf_step_rest_empty (p : ZfParams) (h : SlabHeader) (st : ZfState) :
    (zone_find_step_rest p h st).state.empty_node = st.empty_node := by
  unfold zone_find_step_rest
  repeat' split
  all_goals rfl

lemma zf_step_empty (p : ZfParams) (h : SlabHeader) (st : ZfState) :
    (zone_find_step p h st).state.empty_node = false := by
  unfold zone_find_step
  repeat' split
  · rfl
  · rfl
  all_goals rw [zf_step_rest_empty]

/-! ### C3: CNAME substitution -/

/-- Scan invariant for the CNAME-substitution claim: any found header is a
CNAME. -/
def c3FoundInv (st : ZfState) : Prop :=
  ∀ f, st.found = some f → f.typ = pairOf dns_rdatatype_cname

/-- What one loop iteration guarantees under the C3 hypotheses. -/
def c3StepPost (p : ZfParams) (h : SlabHeader) (st : ZfState) (out : ZfStep) : Prop :=
  (∃ st', out = .cont st' ∨ out = .brk st') ∧
  c3FoundInv out.state ∧
  (st.found.isSome = true → out.state.found.isSome = true) ∧
  ((h.typ = pairOf dns_rdatatype_cname ∧ p.cname_ok = true) →
    out.state.found.isSome = true) ∧
  (∀ st', out = .brk st' → st'.found.isSome = true)

lemma c3_step_rest (p : ZfParams) (h : SlabHeader) (st : ZfState)
    (hT : h.typ ≠ ⟨p.typ, 0⟩)
    (hany : p.typ ≠ dns_rdatatype_any)
    (hn3 : h.typ = pairOf dns_rdatatype_nsec3 → h.nsec3match = true)
    (hinv : c3FoundInv st) :
    c3StepPost p h st (zone_find_step_rest p h st) := by
  have hn3' : ¬(h.typ = pairOf dns_rdatatype_nsec3 ∧ h.nsec3match = false) := by
    intro hc
    rw [hn3 hc.1] at hc
    exact absurd hc.2 (by simp)
  unfold zone_find_step_rest
  rw [if_neg hn3']
  by_cases hcn : h.typ = pairOf dns_rdatatype_cname ∧ p.cname_ok = true
  · rw [if_pos (Or.inr (Or.inr hcn)), if_pos hcn]
    cases hcs : st.cnamesig with
    | some cs =>
      dsimp only
      by_cases hmz : st.maybe_zonecut = false
      · rw [if_pos hmz]
        refine ⟨⟨_, Or.inr rfl⟩, ?_, fun _ => rfl, fun _ => rfl, ?_⟩
        · intro f hf
          simp only [ZfStep.state] at hf
          have he : h = f := by injection hf
          rw [← he]; exact hcn.1
        · intro st' he
          injection he with he
          rw [← he]; rfl
      · rw [if_neg hmz]
        refine ⟨⟨_, Or.inl rfl⟩, ?_, fun _ => rfl, fun _ => rfl,
          fun st' he => nomatch he⟩
        intro f hf
        simp only [ZfStep.state] at hf
        have he : h = f := by injection hf
        rw [← he]; exact hcn.1
    | none =>
      dsimp only
      by_cases hbc : st.maybe_zonecut = false ∧ st.foundsig.isSome = true
      · rw [if_pos hbc]
        refine ⟨⟨_, Or.inr rfl⟩, ?_, fun _ => rfl, fun _ => rfl, ?_⟩
        · intro f hf
          simp only [ZfStep.state] at hf
          have he : h = f := by injection hf
          rw [← he]; exact hcn.1
        · intro st' he
          injection he with he
          rw [← he]; rfl
      · rw [if_neg hbc]
        refine ⟨⟨_, Or.inl rfl⟩, ?_, fun _ => rfl, fun _ => rfl,
          fun st' he => nomatch he⟩
        intro f hf
        simp only [ZfStep.state] at hf
        have he : h = f := by injection hf
        rw [← he]; exact hcn.1
  · rw [if_neg (by
      intro hc
      rcases hc with hc | hc | hc
      · exact hT hc
      · exact hany hc
      · exact hcn hc)]
    by_cases hsg : h.typ = st.sigtype
    · rw [if_pos hsg]
      by_cases hbc : st.maybe_zonecut = false ∧ st.found.isSome = true
      · rw [if_pos hbc]
        refine ⟨⟨_, Or.inr rfl⟩, fun f hf => hinv f hf, fun hb => hb,
          fun hc => absurd hc hcn, ?_⟩
        intro st' he
        injection he with he
        rw [← he]
        exact hbc.2
      · rw [if_neg hbc]
        exact ⟨⟨_, Or.inl rfl⟩, fun f hf => hinv f hf, fun hb => hb,
          fun hc => absurd hc hcn, fun st' he => nomatch he⟩
    · rw [if_neg hsg]
      repeat' split
      all_goals
        exact ⟨⟨_, Or.inl rfl⟩, fun f hf => hinv f hf, fun hb => hb,
          fun hc => absurd hc hcn, fun st' he => nomatch he⟩

lemma c3_step (p : ZfParams) (h : SlabHeader) (st : ZfState)
    (hns : h.typ ≠ pairOf dns_rdatatype_ns)
    (hT : h.typ ≠ ⟨p.typ, 0⟩)
    (hany : p.typ ≠ dns_rdatatype_any)
    (hn3 : h.typ = pairOf dns_rdatatype_nsec3 → h.nsec3match = true)
    (hinv : c3FoundInv st) :
    c3StepPost p h st (zone_find_step p h st) := by
  have hzc : ¬(st.maybe_zonecut = true ∧ h.typ = pairOf dns_rdatatype_ns) :=
    fun hc => hns hc.2
  unfold zone_find_step
  rw [if_neg hzc]
  exact c3_step_rest p h { st with empty_node := false } hT hany hn3
    (fun f hf => hinv f hf)

lemma zf_scan_empty (p : ZfParams) :
    ∀ (data : List HeaderChain) (st : ZfState),
      (st.found.isSome = true → st.empty_node = false) →
      ∀ st', (zone_find_scan p data st = .done st' ∨
              zone_find_scan p data st = .toPartial st') →
        (st'.found.isSome = true → st'.empty_node = false) := by
  intro data
  induction data with
  | nil =>
    intro st hst st' hs
    rcases hs with hs | hs
    · have he : st = st' := by injection hs
      rw [← he]; exact hst
    · nomatch hs
  | cons c rest ih =>
    intro st hst st' hs
    cases hac : active_header p.serial c with
    | none =>
      simp only [zone_find_scan, hac] at hs
      exact ih st hst st' hs
    | some g =>
      have hemp := zf_step_empty p g st
      cases hx : zone_find_step p g st with
      | cont stx =>
        simp only [zone_find_scan, hac, hx] at hs
        refine ih stx ?_ st' hs
        rw [hx] at hemp
        exact fun _ => hemp
      | brk stx =>
        simp only [zone_find_scan, hac, hx] at hs
        rw [hx] at hemp
        rcases hs with hs | hs
        · have he : stx = st' := by injection hs
          rw [← he]; exact fun _ => hemp
        · nomatch hs
      | toPartial stx =>
        simp only [zone_find_scan, hac, hx] at hs
        rw [hx] at hemp
        rcases hs with hs | hs
        · nomatch hs
        · have he : stx = st' := by injection hs
          rw [← he]; exact fun _ => hemp

lemma c3_scan (p : ZfParams) (hany : p.typ ≠ dns_rdatatype_any) :
    ∀ data : List HeaderChain,
      (∀ c ∈ data, ∀ g, active_header p.serial c = some g →
        g.typ ≠ pairOf dns_rdatatype_ns ∧ g.typ ≠ ⟨p.typ, 0⟩ ∧
        (g.typ = pairOf dns_rdatatype_nsec3 → g.nsec3match = true)) →
      ∀ st, c3FoundInv st →
        ∃ st', zone_find_scan p data st = .done st' ∧ c3FoundInv st' ∧
          ((st.found.isSome = true ∨
            ∃ c ∈ data, ∃ g, active_header p.serial c = some g ∧
              g.typ = pairOf dns_rdatatype_cname ∧ p.cname_ok = true) →
            st'.found.isSome = true) := by
  intro data
  induction data with
  | nil =>
    intro _ st hinv
    refine ⟨st, rfl, hinv, ?_⟩
    intro hor
    rcases hor with hor | ⟨c, hc, _⟩
    · exact hor
    · cases hc
  | cons c rest ih =>
    intro hno st hinv
    have hnoRest : ∀ c' ∈ rest, ∀ g, active_header p.serial c' = some g →
        g.typ ≠ pairOf dns_rdatatype_ns ∧ g.typ ≠ ⟨p.typ, 0⟩ ∧
        (g.typ = pairOf dns_rdatatype_nsec3 → g.nsec3match = true) :=
      fun c' hc' => hno c' (List.mem_cons_of_mem _ hc')
    cases hac : active_header p.serial c with
    | none =>
      obtain ⟨st', hscan, hinv', hprop⟩ := ih hnoRest st hinv
      refine ⟨st', by simpa [zone_find_scan, hac] using hscan, hinv', ?_⟩
      intro hor
      apply hprop
      rcases hor with hor | ⟨c', hc', g', hg', htg', hok⟩
      · exact Or.inl hor
      · rcases List.mem_cons.mp hc' with he | he
        · rw [he, hac] at hg'; cases hg'
        · exact Or.inr ⟨c', he, g', hg', htg', hok⟩
    | some g =>
      have hg := hno c (List.mem_cons_self _ _) g hac
      have hstep := c3_step p g st hg.1 hg.2.1 hany hg.2.2 hinv
      obtain ⟨⟨stx, hx⟩, hinv', hB, hC, hE⟩ := hstep
      rcases hx with hx | hx
      · have hstate : (zone_find_step p g st).state = stx := by rw [hx]; rfl
        rw [hstate] at hinv' hB hC
        obtain ⟨st', hscan, hinv2, hprop⟩ := ih hnoRest stx hinv'
        refine ⟨st', by simpa [zone_find_scan, hac, hx] using hscan, hinv2, ?_⟩
        intro hor
        rcases hor with hor | ⟨c', hc', g', hg', htg', hok⟩
        · exact hprop (Or.inl (hB hor))
        · rcases List.mem_cons.mp hc' with he | he
          · rw [he, hac] at hg'
            have hgg : g = g' := by injection hg'
            exact hprop (Or.inl (hC ⟨by rw [hgg]; exact htg', hok⟩))
          · exact hprop (Or.inr ⟨c', he, g', hg', htg', hok⟩)
      · have hstate : (zone_find_step p g st).state = stx := by rw [hx]; rfl
        rw [hstate] at hinv'
        exact ⟨stx, by simp [zone_find_scan, hac, hx], hinv',
          fun _ => hE stx hx⟩

lemma zf_step_rest_found_cases (p : ZfParams) (h : SlabHeader) (st : ZfState) :
    ((zone_find_step_rest p h st).state).found = st.found ∨
    (((zone_find_step_rest p h st).state).found = some h ∧
      (h.typ = ⟨p.typ, 0⟩ ∨ p.typ = dns_rdatatype_any ∨
        (h.typ = pairOf dns_rdatatype_cname ∧ p.cname_ok = true))) := by
  unfold zone_find_step_rest
  by_cases h1 : h.typ = pairOf dns_rdatatype_nsec3 ∧ h.nsec3match = false
  · rw [if_pos h1]; exact Or.inl rfl
  · rw [if_neg h1]
    by_cases h2 : h.typ = ⟨p.typ, 0⟩ ∨ p.typ = dns_rdatatype_any ∨
        (h.typ = pairOf dns_rdatatype_cname ∧ p.cname_ok = true)
    · rw [if_pos h2]
      by_cases h3 : h.typ = pairOf dns_rdatatype_cname ∧ p.cname_ok = true
      · rw [if_pos h3]
        cases hcs : st.cnamesig with
        | some cs =>
          dsimp only
          by_cases h4 : st.maybe_zonecut = false
          · rw [if_pos h4]; exact Or.inr ⟨rfl, h2⟩
          · rw [if_neg h4]; exact Or.inr ⟨rfl, h2⟩
        | none =>
          dsimp only
          by_cases h4 : st.maybe_zonecut = false ∧ st.foundsig.isSome = true
          · rw [if_pos h4]; exact Or.inr ⟨rfl, h2⟩
          · rw [if_neg h4]; exact Or.inr ⟨rfl, h2⟩
      · rw [if_neg h3]
        by_cases h4 : st.maybe_zonecut = false ∧ st.foundsig.isSome = true
        · rw [if_pos h4]; exact Or.inr ⟨rfl, h2⟩
        · rw [if_neg h4]; exact Or.inr ⟨rfl, h2⟩
    · rw [if_neg h2]
      by_cases h3 : h.typ = st.sigtype
      · rw [if_pos h3]
        by_cases h4 : st.maybe_zonecut = false ∧ st.found.isSome = true
        · rw [if_pos h4]; exact Or.inl rfl
        · rw [if_neg h4]; exact Or.inl rfl
      · rw [if_neg h3]
        repeat' split
        all_goals exact Or.inl rfl

lemma zf_step_found_cases (p : ZfParams) (h : SlabHeader) (st : ZfState) :
    ((zone_find_step p h st).state).found = st.found ∨
    ((zone_find_step p h st).state).found = none ∨
    (((zone_find_step p h st).state).found = some h ∧
      (h.typ = ⟨p.typ, 0⟩ ∨ p.typ = dns_rdatatype_any ∨
        (h.typ = pairOf dns_rdatatype_cname ∧ p.cname_ok = true))) := by
  unfold zone_find_step
  by_cases hz : st.maybe_zonecut = true ∧ h.typ = pairOf dns_rdatatype_ns
  · rw [if_pos hz]
    by_cases h1 : p.glueok = false ∧ p.typ ≠ dns_rdatatype_nsec ∧
        p.typ ≠ dns_rdatatype_key
    · rw [if_pos h1]; exact Or.inr (Or.inl rfl)
    · rw [if_neg h1]
      by_cases h2 : st.found.isSome = true ∧ st.foundsig.isSome = true
      · rw [if_pos h2]; exact Or.inl rfl
      · rw [if_neg h2]
        rcases zf_step_rest_found_cases p h
            { st with empty_node := false, maybe_zonecut := false,
                      zonecut := some ⟨h, none, true⟩ } with hc | hc
        · exact Or.inl hc
        · exact Or.inr (Or.inr hc)
  · rw [if_neg hz]
    rcases zf_step_rest_found_cases p h { st with empty_node := false } with hc | hc
    · exact Or.inl hc
    · exact Or.inr (Or.inr hc)

lemma c3b_scan (p : ZfParams) (hok : p.cname_ok = false)
    (hany : p.typ ≠ dns_rdatatype_any) :
    ∀ (data : List HeaderChain) (st : ZfState),
      (∀ f, st.found = some f → f.typ = ⟨p.typ, 0⟩) →
      ∀ st', (zone_find_scan p data st = .done st' ∨
              zone_find_scan p data st = .toPartial st') →
        ∀ f, st'.found = some f → f.typ = ⟨p.typ, 0⟩ := by
  intro data
  induction data with
  | nil =>
    intro st hinv st' hs
    rcases hs with hs | hs
    · have he : st = st' := by injection hs
      rw [← he]; exact hinv
    · nomatch hs
  | cons c rest ih =>
    intro st hinv st' hs
    cases hac : active_header p.serial c with
    | none =>
      simp only [zone_find_scan, hac] at hs
      exact ih st hinv st' hs
    | some g =>
      have hstepinv : ∀ f, ((zone_find_step p g st).state).found = some f →
          f.typ = ⟨p.typ, 0⟩ := by
        intro f hf
        rcases zf_step_found_cases p g st with hc | hc | hc
        · exact hinv f (hc ▸ hf)
        · rw [hc] at hf; cases hf
        · rw [hc.1] at hf
          have he : g = f := by injection hf
          rcases hc.2 with ht | ht | ht
          · rw [← he]; exact ht
          · exact absurd ht hany
          · rw [hok] at ht; exact absurd ht.2 (by simp)
      cases hx : zone_find_step p g st with
      | cont stx =>
        simp only [zone_find_scan, hac, hx] at hs
        refine ih stx ?_ st' hs
        intro f hf
        exact hstepinv f (by rw [hx]; exact hf)
      | brk stx =>
        simp only [zone_find_scan, hac, hx] at hs
        rcases hs with hs | hs
        · have he : stx = st' := by injection hs
          intro f hf
          exact hstepinv f (by rw [hx, he]; exact hf)
        · nomatch hs
      | toPartial stx =>
        simp only [zone_find_scan, hac, hx] at hs
        rcases hs with hs | hs
        · nomatch hs
        · have he : stx = st' := by injection hs
          intro f hf
          exact hstepinv f (by rw [hx, he]; exact hf)

lemma setup_delegation_result_ne_cname (t : TypePair) :
    setup_delegation_result t ≠ .cname := by
  unfold setup_delegation_result
  split
  · decide
  · decide

lemma c3b_tail (p : ZfParams) (wild secure : Bool) (st : ZfState)
    (hinv : ∀ f, st.found = some f → f.typ = ⟨p.typ, 0⟩) :
    ∀ res rd sg, zone_find_tail p wild secure st = .answer res rd sg →
      res ≠ .cname := by
  intro res rd sg heq hres
  subst hres
  unfold zone_find_tail at heq
  by_cases hemp : st.empty_node = true ∧ wild = false
  · rw [if_pos hemp] at heq; nomatch heq
  · rw [if_neg hemp] at heq
    cases hfd : st.found with
    | none =>
      rw [hfd] at heq
      dsimp only at heq
      cases hzc : st.zonecut with
      | some zc =>
        rw [hzc] at heq
        dsimp only at heq
        have : setup_delegation_result zc.header.typ = .cname := by
          injection heq
        exact setup_delegation_result_ne_cname zc.header.typ this
      | none =>
        rw [hzc] at heq
        dsimp only at heq
        by_cases h1 : secure = true ∧ p.havensec3 = false ∧
            (st.nsecheader = none ∨ st.nsecsig = none)
        · rw [if_pos h1] at heq
          by_cases h2 : wild = false
          · rw [if_pos h2] at heq
            have : Res.baddb = Res.cname := by injection heq
            cases this
          · rw [if_neg h2] at heq; nomatch heq
        · rw [if_neg h1] at heq
          have : Res.nxrrset = Res.cname := by injection heq
          cases this
    | some f =>
      rw [hfd] at heq
      dsimp only at heq
      have hft := hinv f hfd
      have hc1 : ¬(f.typ ≠ ⟨p.typ, 0⟩ ∧ p.typ ≠ dns_rdatatype_any ∧
          f.typ = pairOf dns_rdatatype_cname) := by
        intro hc
        exact hc.1 hft
      rw [if_neg hc1] at heq
      cases hzc : st.zonecut with
      | some zc =>
        rw [hzc] at heq
        dsimp only at heq
        by_cases h1 : zc.at_node = true
        · rw [if_pos h1] at heq
          by_cases h2 : p.typ = dns_rdatatype_nsec ∨ p.typ = dns_rdatatype_nsec3 ∨
              p.typ = dns_rdatatype_key
          · rw [if_pos h2] at heq
            have : Res.success = Res.cname := by injection heq
            cases this
          · rw [if_neg h2] at heq
            by_cases h3 : p.typ = dns_rdatatype_any
            · rw [if_pos h3] at heq
              have : Res.zonecut = Res.cname := by injection heq
              cases this
            · rw [if_neg h3] at heq
              have : Res.glue = Res.cname := by injection heq
              cases this
        · rw [if_neg h1] at heq
          have : Res.glue = Res.cname := by injection heq
          cases this
      | none =>
        rw [hzc] at heq
        dsimp only at heq
        have : Res.success = Res.cname := by injection heq
        cases this

/-- C3: CNAME substitution in `zone_find`.  (1) On an exact match with no
zonecut above and none recorded at the node (no active NS), a requested
type outside {CNAME, ANY, KEY, NSEC} that is absent while an active CNAME
exists yields `DNS_R_CNAME` with the CNAME header bound into `rdataset`.
(2) For KEY and NSEC queries `cname_ok` is cleared, so the result is never
`DNS_R_CNAME`. -/
theorem zone_find_cname_substitution (serial : Nat) (typ : Rdatatype)
    (glueok secure havensec3 : Bool)
    (is_stub node_is_origin find_callback wild : Bool)
    (data : List HeaderChain) :
    ((typ ≠ dns_rdatatype_cname ∧ typ ≠ dns_rdatatype_any ∧
      typ ≠ dns_rdatatype_key ∧ typ ≠ dns_rdatatype_nsec) →
     (∀ c ∈ data, ∀ g, active_header serial c = some g →
        g.typ ≠ pairOf dns_rdatatype_ns ∧ g.typ ≠ ⟨typ, 0⟩ ∧
        (g.typ = pairOf dns_rdatatype_nsec3 → g.nsec3match = true)) →
     (∃ c, c ∈ data ∧ ∃ g, active_header serial c = some g ∧
        g.typ = pairOf dns_rdatatype_cname) →
     ∃ f sg, zone_find_exact serial typ glueok secure havensec3 is_stub
         node_is_origin find_callback wild none data =
           .answer .cname (some f) sg ∧
       f.typ = pairOf dns_rdatatype_cname) ∧
    ((typ = dns_rdatatype_key ∨ typ = dns_rdatatype_nsec) →
     ∀ anc res rd sg, zone_find_exact serial typ glueok secure havensec3
         is_stub node_is_origin find_callback wild anc data =
           .answer res rd sg →
       res ≠ .cname) := by
  constructor
  · intro htys hno hex
    have hok : (mkZfParams serial typ glueok havensec3 none).cname_ok = true := by
      unfold mkZfParams
      dsimp only
      rw [if_neg (by simp)]
      rw [if_neg (by
        intro hc
        rcases hc with hc | hc
        · exact htys.2.2.1 hc
        · exact htys.2.2.2 hc)]
    have hanyp : (mkZfParams serial typ glueok havensec3 none).typ ≠
        dns_rdatatype_any := htys.2.1
    have hinv0 : c3FoundInv (zfInit typ none find_callback node_is_origin
        is_stub) := fun f hf => nomatch hf
    obtain ⟨st', hscan, hinv', hprop⟩ :=
      c3_scan (mkZfParams serial typ glueok havensec3 none) hanyp data hno
        (zfInit typ none find_callback node_is_origin is_stub) hinv0
    have hfs : st'.found.isSome = true := by
      apply hprop
      right
      obtain ⟨c, hc, g, hg, hgt⟩ := hex
      exact ⟨c, hc, g, hg, hgt, hok⟩
    obtain ⟨f, hf⟩ := Option.isSome_iff_exists.mp hfs
    have hft := hinv' f hf
    have hemp : st'.empty_node = false := by
      refine zf_scan_empty (mkZfParams serial typ glueok havensec3 none) data
        (zfInit typ none find_callback node_is_origin is_stub) ?_ st'
        (Or.inl hscan) hfs
      intro hI
      exact absurd hI (by simp [zfInit])
    have htail : zone_find_tail (mkZfParams serial typ glueok havensec3 none)
        wild secure st' = .answer .cname (some f) st'.foundsig := by
      have hptyp : (mkZfParams serial typ glueok havensec3 none).typ = typ := rfl
      unfold zone_find_tail
      rw [if_neg (by rw [hemp]; simp)]
      rw [hf]
      dsimp only
      rw [hptyp]
      rw [if_pos ⟨by
            rw [hft]
            intro he
            exact htys.1 (by injection he with h1 h2; exact h1.symm),
          htys.2.1, hft⟩]
      rw [if_neg htys.2.1, if_neg htys.2.1]
    refine ⟨f, st'.foundsig, ?_, hft⟩
    show (match zone_find_scan (mkZfParams serial typ glueok havensec3 none)
        data (zfInit typ none find_callback node_is_origin is_stub) with
      | .done st => zone_find_tail (mkZfParams serial typ glueok havensec3 none)
          wild secure st
      | .toPartial st => ZfOut.gotoPartial st) = _
    rw [hscan]
    exact htail
  · intro hkn anc res rd sg heq
    have hok : (mkZfParams serial typ glueok havensec3 anc).cname_ok = false := by
      unfold mkZfParams
      dsimp only
      by_cases ha : anc.isSome = true
      · rw [if_pos ha]
      · rw [if_neg ha, if_pos hkn]
    have hany : (mkZfParams serial typ glueok havensec3 anc).typ ≠
        dns_rdatatype_any := by
      rcases hkn with h | h <;>
        (show typ ≠ dns_rdatatype_any; rw [h]; decide)
    have heq' : (match zone_find_scan (mkZfParams serial typ glueok havensec3 anc)
        data (zfInit typ anc find_callback node_is_origin is_stub) with
      | .done st => zone_find_tail (mkZfParams serial typ glueok havensec3 anc)
          wild secure st
      | .toPartial st => ZfOut.gotoPartial st) = .answer res rd sg := heq
    cases hscan : zone_find_scan (mkZfParams serial typ glueok havensec3 anc)
        data (zfInit typ anc find_callback node_is_origin is_stub) with
    | done st =>
      rw [hscan] at heq'
      dsimp only at heq'
      have hinv := c3b_scan (mkZfParams serial typ glueok havensec3 anc) hok
        hany data (zfInit typ anc find_callback node_is_origin is_stub)
        (fun f hf => nomatch hf) st (Or.inl hscan)
      exact c3b_tail (mkZfParams serial typ glueok havensec3 anc) wild secure
        st hinv res rd sg heq'
    | toPartial st =>
      rw [hscan] at heq'
      nomatch heq'

/-- Witness for C3: a node with only an active CNAME answers an `A` query
with `DNS_R_CNAME`, and never answers a KEY query with `DNS_R_CNAME`. -/
theorem zone_find_cname_substitution_witness :
    (∃ f sg, zone_find_exact 1 1 false false false false false false false
        none [[⟨⟨5, 0⟩, 1, false, false, false, true⟩]] =
          .answer .cname (some f) sg ∧
      f.typ = pairOf dns_rdatatype_cname) ∧
    (∀ res rd sg, zone_find_exact 1 25 false false false false false false
        false none [[⟨⟨5, 0⟩, 1, false, false, false, true⟩]] =
          .answer res rd sg →
      res ≠ .cname) :=
  ⟨(zone_find_cname_substitution 1 1 false false false false false false false
      [[⟨⟨5, 0⟩, 1, false, false, false, true⟩]]).1 (by decide)
      (by
        intro c hc g hg
        have hc' : c = [⟨⟨5, 0⟩, 1, false, false, false, true⟩] := by
          simpa using hc
        subst hc'
        have hgv : g = ⟨⟨5, 0⟩, 1, false, false, false, true⟩ := by
          have hav : active_header 1 [⟨⟨5, 0⟩, 1, false, false, false, true⟩] =
              some ⟨⟨5, 0⟩, 1, false, false, false, true⟩ := by decide
          rw [hav] at hg
          injection hg with hg
          exact hg.symm
        subst hgv
        exact ⟨by decide, by decide, by decide⟩)
      ⟨[⟨⟨5, 0⟩, 1, false, false, false, true⟩], by decide,
       ⟨⟨5, 0⟩, 1, false, false, false, true⟩, by decide, by decide⟩,
   fun res rd sg heq =>
     (zone_find_cname_substitution 1 25 false false false false false false
        false [[⟨⟨5, 0⟩, 1, false, false, false, true⟩]]).2 (Or.inl rfl)
        none res rd sg heq⟩

/-! ### C6: classification under a zonecut -/

/-- C6 counterexample: at a node that is itself the recorded zonecut (active
NS, `GLUEOK` set), an `A` query finding an active CNAME returns
`DNS_R_CNAME`, not `DNS_R_GLUE` — CNAME substitution precedes the
under-a-zonecut classification. -/
theorem zone_find_zonecut_cname_counterexample :
    zone_find_scan (mkZfParams 1 1 true false none)
        [[⟨⟨2, 0⟩, 1, false, false, false, true⟩],
         [⟨⟨5, 0⟩, 1, false, false, false, true⟩]]
        (zfInit 1 none true false false) =
      .done ⟨some ⟨⟨5, 0⟩, 1, false, false, false, true⟩, none, none, none,
             none, false, ⟨46, 5⟩, false,
             some ⟨⟨⟨2, 0⟩, 1, false, false, false, true⟩, none, true⟩⟩ ∧
    zone_find_exact 1 1 true false false false false true false none
        [[⟨⟨2, 0⟩, 1, false, false, false, true⟩],
         [⟨⟨5, 0⟩, 1, false, false, false, true⟩]] =
      .answer .cname (some ⟨⟨5, 0⟩, 1, false, false, false, true⟩) none ∧
    Res.cname ≠ Res.glue := by
  refine ⟨by decide, by decide, by decide⟩

/-- C6 (amended): when the exact-match scan ends with an answer header
`found` and a recorded zonecut, and the found header does not trigger CNAME
substitution, the result is `SUCCESS` at the zonecut node for NSEC, NSEC3
and KEY queries, `DNS_R_ZONECUT` for ANY at the zonecut node, and
`DNS_R_GLUE` in every other case (including any node strictly beneath the
zonecut, where the zonecut was recorded by an ancestor). -/
theorem zone_find_zonecut_classification (serial : Nat) (typ : Rdatatype)
    (glueok secure havensec3 : Bool)
    (is_stub node_is_origin find_callback wild : Bool)
    (anc : Option (SlabHeader × Option SlabHeader))
    (data : List HeaderChain) (st : ZfState) (f : SlabHeader)
    (zc : ZonecutInfo)
    (hscan : zone_find_scan (mkZfParams serial typ glueok havensec3 anc) data
      (zfInit typ anc find_callback node_is_origin is_stub) = .done st)
    (hf : st.found = some f)
    (hzc : st.zonecut = some zc)
    (hnc : ¬(f.typ ≠ ⟨typ, 0⟩ ∧ typ ≠ dns_rdatatype_any ∧
      f.typ = pairOf dns_rdatatype_cname)) :
    zone_find_exact serial typ glueok secure havensec3 is_stub node_is_origin
        find_callback wild anc data =
      .answer
        (if zc.at_node = true then
          if typ = dns_rdatatype_nsec ∨ typ = dns_rdatatype_nsec3 ∨
              typ = dns_rdatatype_key then .success
          else if typ = dns_rdatatype_any then .zonecut
          else .glue
        else .glue)
        (if typ = dns_rdatatype_any then none else some f)
        (if typ = dns_rdatatype_any then none else st.foundsig) := by
  have hemp : st.empty_node = false := by
    refine zf_scan_empty (mkZfParams serial typ glueok havensec3 anc) data
      (zfInit typ anc find_callback node_is_origin is_stub) ?_ st
      (Or.inl hscan) (by rw [hf]; rfl)
    intro hI
    exact absurd hI (by simp [zfInit])
  show (match zone_find_scan (mkZfParams serial typ glueok havensec3 anc)
      data (zfInit typ anc find_callback node_is_origin is_stub) with
    | .done st => zone_find_tail (mkZfParams serial typ glueok havensec3 anc)
        wild secure st
    | .toPartial st => ZfOut.gotoPartial st) = _
  rw [hscan]
  dsimp only
  have hptyp : (mkZfParams serial typ glueok havensec3 anc).typ = typ := rfl
  unfold zone_find_tail
  rw [if_neg (by rw [hemp]; simp)]
  rw [hf]
  dsimp only
  rw [hptyp]
  rw [if_neg hnc]
  rw [hzc]

/-- Witness for the amended C6: an `A` answer at the zonecut node itself
(with `GLUEOK`) is classified `DNS_R_GLUE`. -/
theorem zone_find_zonecut_classification_witness :
    zone_find_scan (mkZfParams 1 1 true false none)
        [[⟨⟨2, 0⟩, 1, false, false, false, true⟩],
         [⟨⟨1, 0⟩, 1, false, false, false, true⟩]]
        (zfInit 1 none true false false) =
      .done ⟨some ⟨⟨1, 0⟩, 1, false, false, false, true⟩, none, none, none,
             none, false, ⟨46, 1⟩, false,
             some ⟨⟨⟨2, 0⟩, 1, false, false, false, true⟩, none, true⟩⟩ ∧
    zone_find_exact 1 1 true false false false false true false none
        [[⟨⟨2, 0⟩, 1, false, false, false, true⟩],
         [⟨⟨1, 0⟩, 1, false, false, false, true⟩]] =
      .answer .glue (some ⟨⟨1, 0⟩, 1, false, false, false, true⟩) none :=
  ⟨by decide,
   (zone_find_zonecut_classification 1 1 true false false false false true
      false none
      [[⟨⟨2, 0⟩, 1, false, false, false, true⟩],
       [⟨⟨1, 0⟩, 1, false, false, false, true⟩]]
      ⟨some ⟨⟨1, 0⟩, 1, false, false, false, true⟩, none, none, none, none,
       false, ⟨46, 1⟩, false,
       some ⟨⟨⟨2, 0⟩, 1, false, false, false, true⟩, none, true⟩⟩
      ⟨⟨1, 0⟩, 1, false, false, false, true⟩
      ⟨⟨⟨2, 0⟩, 1, false, false, false, true⟩, none, true⟩
      (by decide) rfl rfl (by decide)).trans (by decide)⟩

/-! ### Names -/

/-- A DNS name as an ordered list of labels, leftmost label first
(so `a.b.example` is `["a", "b", "example"]`). -/
abbrev Name := List String

/-! ### Resign headers, `setsigningtime` and `getsigningtime` -/

/-- The slab-header fields read by the resign-heap operations: the split
resign key `(resign, resign_lsb)`, the heap position (`0` = not in a heap),
the `RESIGN` attribute bit, and the owner node's name (bound by
`getsigningtime`). -/
structure ResignHeader where
  resign : Nat
  resign_lsb : Nat
  heap_index : Nat
  resign_attr : Bool
  nodename : Name := []
deriving DecidableEq, Repr

/-- The heap operations `setsigningtime` can issue, in order. -/
inductive HeapOp where
  | hdelete
  | hincreased
  | hdecreased
  | hinsert
deriving DecidableEq, Repr

/-- Modelled from the spec: the database's `sooner(a, b)` resign order
(assigned at database creation, outside this repository); per the spec it
compares the `(resign, resign_lsb)` keys. -/
def resign_sooner (a b : ResignHeader) : Bool :=
  decide (a.resign < b.resign ∨
    (a.resign = b.resign ∧ a.resign_lsb < b.resign_lsb))

/-- `setsigningtime(db, rdataset, resign)` on the slab header behind the
rdataset: key update (through `dns_time64_from32`, modelled by the
parameter `t64` since its definition is outside this repository), then the
heap maintenance; returns the new header, the heap operations issued, and
the result code. -/
def setsigningtime (t64 : Nat → Nat)
    (sooner : ResignHeader → ResignHeader → Bool)
    (header : ResignHeader) (resign : Nat) :
    ResignHeader × List HeapOp × Res :=
  let oldheader := header
  let header :=
    if resign ≠ 0 then
      { header with resign := t64 resign / 2, resign_lsb := resign % 2 }
    else header
  if header.heap_index ≠ 0 then
    if resign = 0 then
      ({ header with heap_index := 0 }, [.hdelete], .success)
    else if sooner header oldheader then (header, [.hincreased], .success)
    else if sooner oldheader header then (header, [.hdecreased], .success)
    else (header, [], .success)
  else if resign ≠ 0 then
    ({ header with resign_attr := true }, [.hinsert], .success)
  else (header, [], .success)

/-- C5 counterexample: deleting a header from the resign heap
(`resign = 0`, `heap_index ≠ 0`) zeroes `heap_index` and issues the heap
delete, but leaves the `RESIGN` attribute set — the claim says the
attribute is cleared. -/
theorem setsigningtime_resign_not_cleared :
    setsigningtime (fun t => t) resign_sooner ⟨5, 0, 1, true, []⟩ 0 =
      (⟨5, 0, 0, true, []⟩, [.hdelete], .success) ∧
    (⟨5, 0, 0, true, []⟩ : ResignHeader).resign_attr = true := by
  exact ⟨rfl, rfl⟩

/-- C5 (amended): `setsigningtime` behaves as claimed except that on the
`resign = 0` heap deletion the `RESIGN` attribute is left unchanged (still
set) rather than cleared: delete from the heap when `resign = 0` and the
header is in it; update the key and issue `increased`/`decreased` (or
nothing when the key did not move) when `resign ≠ 0` and the header is in
the heap; set `RESIGN` and insert when `resign ≠ 0` and it is not; always
return `ISC_R_SUCCESS`. -/
theorem setsigningtime_cases (t64 : Nat → Nat)
    (sooner : ResignHeader → ResignHeader → Bool)
    (h : ResignHeader) (resign : Nat) :
    (resign = 0 → h.heap_index ≠ 0 →
      setsigningtime t64 sooner h resign =
        ({ h with heap_index := 0 }, [.hdelete], .success)) ∧
    (resign ≠ 0 → h.heap_index ≠ 0 →
      setsigningtime t64 sooner h resign =
        ({ h with resign := t64 resign / 2, resign_lsb := resign % 2 },
         (if sooner { h with resign := t64 resign / 2,
                             resign_lsb := resign % 2 } h then
            [HeapOp.hincreased]
          else if sooner h { h with resign := t64 resign / 2,
                                    resign_lsb := resign % 2 } then
            [HeapOp.hdecreased]
          else []), .success)) ∧
    (resign ≠ 0 → h.heap_index = 0 →
      setsigningtime t64 sooner h resign =
        ({ h with resign := t64 resign / 2, resign_lsb := resign % 2,
                  resign_attr := true }, [.hinsert], .success)) ∧
    (setsigningtime t64 sooner h resign).2.2 = .success := by
  refine ⟨?_, ?_, ?_, ?_⟩
  · intro h0 hh
    have hr : ¬(resign ≠ 0) := by simp [h0]
    unfold setsigningtime
    dsimp only
    rw [if_neg hr]
    rw [if_pos hh, if_pos h0]
  · intro h0 hh
    unfold setsigningtime
    dsimp only
    rw [if_pos h0]
    dsimp only
    rw [if_pos hh, if_neg h0]
    by_cases hs1 : sooner { h with resign := t64 resign / 2, resign_lsb := resign % 2 } h = true
    · rw [if_pos hs1, if_pos hs1]
    · rw [if_neg hs1, if_neg hs1]
      by_cases hs2 : sooner h { h with resign := t64 resign / 2, resign_lsb := resign % 2 } = true
      · rw [if_pos hs2, if_pos hs2]
      · rw [if_neg hs2, if_neg hs2]
  · intro h0 hh
    have hr : ¬(h.heap_index ≠ 0) := fun hc => hc hh
    unfold setsigningtime
    dsimp only
    rw [if_pos h0]
    dsimp only
    rw [if_neg hr, if_pos h0]
  · unfold setsigningtime
    dsimp only
    repeat' split
    all_goals rfl

/-- Witness for the amended C5: inserting a header not yet in the heap with
`resign = 7` sets `RESIGN`, stores the split key `(3, 1)` and issues the
heap insert. -/
theorem setsigningtime_cases_witness :
    setsigningtime (fun t => t) resign_sooner ⟨0, 0, 0, false, []⟩ 7 =
      (⟨3, 1, 0, true, []⟩, [.hinsert], .success) :=
  (setsigningtime_cases (fun t => t) resign_sooner ⟨0, 0, 0, false, []⟩
      7).2.2.1 (by decide) rfl

/-- The bucket loop of `getsigningtime`: examine `isc_heap_element(heap, 1)`
(the heap root, modelled as the list head) of each bucket and keep the
first root, replacing it whenever a strictly sooner root is found. -/
def getsigningtime_scan (sooner : ResignHeader → ResignHeader → Bool) :
    List (List ResignHeader) → Option ResignHeader → Option ResignHeader
  | [], best => best
  | heap :: rest, best =>
    match heap.head? with
    | none => getsigningtime_scan sooner rest best
    | some hd =>
      match best with
      | none => getsigningtime_scan sooner rest (some hd)
      | some b =>
        if sooner hd b then getsigningtime_scan sooner rest (some hd)
        else getsigningtime_scan sooner rest best

/-- `getsigningtime(db, rdataset, foundname)`: scan all buckets; bind the
winning header (its rdataset and owner name, represented by returning the
header) or return `ISC_R_NOTFOUND`. -/
def getsigningtime (sooner : ResignHeader → ResignHeader → Bool)
    (heaps : List (List ResignHeader)) : Res × Option ResignHeader :=
  match getsigningtime_scan sooner heaps none with
  | none => (.notfound, none)
  | some h => (.success, some h)

/-- The roots of the non-empty bucket heaps, in bucket order. -/
def heapRoots (heaps : List (List ResignHeader)) : List ResignHeader :=
  heaps.filterMap List.head?

/-- The bucket loop seen on the root list alone. -/
def scanR (sooner : ResignHeader → ResignHeader → Bool) :
    List ResignHeader → Option ResignHeader → Option ResignHeader
  | [], best => best
  | r :: rs, best =>
    match best with
    | none => scanR sooner rs (some r)
    | some b =>
      if sooner r b then scanR sooner rs (some r)
      else scanR sooner rs best

lemma getsigningtime_scan_eq_scanR (sooner : ResignHeader → ResignHeader → Bool) :
    ∀ (heaps : List (List ResignHeader)) (best : Option ResignHeader),
      getsigningtime_scan sooner heaps best =
        scanR sooner (heapRoots heaps) best := by
  intro heaps
  induction heaps with
  | nil => intro best; rfl
  | cons heap rest ih =>
    intro best
    cases hh : heap.head? with
    | none =>
      simp only [getsigningtime_scan, hh, heapRoots, List.filterMap_cons, ih]
    | some hd =>
      cases best with
      | none =>
        simp only [getsigningtime_scan, hh, heapRoots, List.filterMap_cons,
          ih, scanR]
      | some b =>
        simp only [getsigningtime_scan, hh, heapRoots, List.filterMap_cons,
          ih, scanR]

lemma rs_true_iff (a b : ResignHeader) :
    resign_sooner a b = true ↔
      (a.resign < b.resign ∨
        (a.resign = b.resign ∧ a.resign_lsb < b.resign_lsb)) := by
  simp [resign_sooner]

lemma rs_false_iff (a b : ResignHeader) :
    resign_sooner a b = false ↔
      ¬(a.resign < b.resign ∨
        (a.resign = b.resign ∧ a.resign_lsb < b.resign_lsb)) := by
  simp [resign_sooner]

lemma rs_irrefl (a : ResignHeader) : resign_sooner a a = false := by
  rw [rs_false_iff]; omega

lemma rs_lt_of_lt_of_nlt {a b c : ResignHeader}
    (h1 : resign_sooner a b = true) (h2 : resign_sooner c b = false) :
    resign_sooner a c = true := by
  rw [rs_true_iff] at h1 ⊢
  rw [rs_false_iff] at h2
  omega

lemma rs_nlt_of_nlt_of_nlt {a b c : ResignHeader}
    (h1 : resign_sooner b c = false) (h2 : resign_sooner a b = false) :
    resign_sooner a c = false := by
  rw [rs_false_iff] at h1 h2 ⊢
  omega

lemma rs_trans {a b c : ResignHeader}
    (h1 : resign_sooner a b = true) (h2 : resign_sooner b c = true) :
    resign_sooner a c = true := by
  rw [rs_true_iff] at h1 h2 ⊢
  omega

lemma rs_nlt_of_lt_of_nlt {a b c : ResignHeader}
    (h1 : resign_sooner a b = true) (h2 : resign_sooner a c = false) :
    resign_sooner b c = false := by
  rw [rs_true_iff] at h1
  rw [rs_false_iff] at h2 ⊢
  omega

lemma scanR_isSome (sooner : ResignHeader → ResignHeader → Bool) :
    ∀ (rs : List ResignHeader) (b : ResignHeader),
      ∃ h, scanR sooner rs (some b) = some h := by
  intro rs
  induction rs with
  | nil => intro b; exact ⟨b, rfl⟩
  | cons r rest ih =>
    intro b
    dsimp only [scanR]
    by_cases hs : sooner r b = true
    · rw [if_pos hs]; exact ih r
    · rw [if_neg hs]; exact ih b

lemma scanR_min :
    ∀ (rs : List ResignHeader) (b h : ResignHeader),
      scanR resign_sooner rs (some b) = some h →
        (h = b ∨ h ∈ rs) ∧ resign_sooner b h = false ∧
        ∀ x ∈ rs, resign_sooner x h = false := by
  intro rs
  induction rs with
  | nil =>
    intro b h hs
    have he : b = h := by injection hs
    subst he
    exact ⟨Or.inl rfl, rs_irrefl b, by intro x hx; cases hx⟩
  | cons r rest ih =>
    intro b h hs
    dsimp only [scanR] at hs
    by_cases hrb : resign_sooner r b = true
    · rw [if_pos hrb] at hs
      obtain ⟨hmem, hrh, hall⟩ := ih r h hs
      have hbh : resign_sooner b h = false := rs_nlt_of_lt_of_nlt hrb hrh
      refine ⟨?_, hbh, ?_⟩
      · rcases hmem with hm | hm
        · exact Or.inr (hm ▸ List.mem_cons_self _ _)
        · exact Or.inr (List.mem_cons_of_mem _ hm)
      · intro x hx
        rcases List.mem_cons.mp hx with hx | hx
        · rw [hx]; exact hrh
        · exact hall x hx
    · rw [if_neg hrb] at hs
      have hrb' : resign_sooner r b = false := by
        cases hv : resign_sooner r b
        · rfl
        · exact absurd hv hrb
      obtain ⟨hmem, hbh, hall⟩ := ih b h hs
      refine ⟨?_, hbh, ?_⟩
      · rcases hmem with hm | hm
        · exact Or.inl hm
        · exact Or.inr (List.mem_cons_of_mem _ hm)
      · intro x hx
        rcases List.mem_cons.mp hx with hx | hx
        · rw [hx]; exact rs_nlt_of_nlt_of_nlt hbh hrb'
        · exact hall x hx

lemma scanR_first :
    ∀ (rs : List ResignHeader) (b h : ResignHeader),
      scanR resign_sooner rs (some b) = some h →
        h = b ∨ ∃ u v, rs = u ++ h :: v ∧ resign_sooner h b = true ∧
          ∀ x ∈ u, resign_sooner h x = true := by
  intro rs
  induction rs with
  | nil =>
    intro b h hs
    have he : b = h := by injection hs
    exact Or.inl he.symm
  | cons r rest ih =>
    intro b h hs
    dsimp only [scanR] at hs
    by_cases hrb : resign_sooner r b = true
    · rw [if_pos hrb] at hs
      rcases ih r h hs with he | ⟨u, v, heq, hhb, hu⟩
      · subst he
        exact Or.inr ⟨[], rest, rfl, hrb, by intro x hx; cases hx⟩
      · refine Or.inr ⟨r :: u, v, by rw [heq]; simp, rs_trans hhb hrb, ?_⟩
        intro x hx
        rcases List.mem_cons.mp hx with hx | hx
        · rw [hx]; exact hhb
        · exact hu x hx
    · rw [if_neg hrb] at hs
      have hrb' : resign_sooner r b = false := by
        cases hv : resign_sooner r b
        · rfl
        · exact absurd hv hrb
      rcases ih b h hs with he | ⟨u, v, heq, hhb, hu⟩
      · exact Or.inl he
      · refine Or.inr ⟨r :: u, v, by rw [heq]; simp, hhb, ?_⟩
        intro x hx
        rcases List.mem_cons.mp hx with hx | hx
        · rw [hx]; exact rs_lt_of_lt_of_nlt hhb hrb'
        · exact hu x hx

lemma heapRoots_nil_of_all_nil {heaps : List (List ResignHeader)}
    (h : ∀ hp ∈ heaps, hp = []) : heapRoots heaps = [] := by
  induction heaps with
  | nil => rfl
  | cons hp rest ih =>
    have h0 : hp = [] := h hp (List.mem_cons_self _ _)
    subst h0
    simp only [heapRoots, List.filterMap_cons]
    exact ih (fun d hd => h d (List.mem_cons_of_mem _ hd))

lemma heapRoots_mem {heaps : List (List ResignHeader)} {hp : List ResignHeader}
    {r : ResignHeader} (hhp : hp ∈ heaps) (hr : hp.head? = some r) :
    r ∈ heapRoots heaps :=
  List.mem_filterMap.mpr ⟨hp, hhp, hr⟩

lemma heapRoots_ne_nil {heaps : List (List ResignHeader)}
    {hp : List ResignHeader} (hhp : hp ∈ heaps) (hne : hp ≠ []) :
    heapRoots heaps ≠ [] := by
  cases hp with
  | nil => exact absurd rfl hne
  | cons x xs =>
    have : x ∈ heapRoots heaps := heapRoots_mem hhp rfl
    intro he
    rw [he] at this
    cases this

/-- C8: with every bucket heap's root minimal for its heap (the `isc_heap`
invariant, modelled as a hypothesis since the heap code is outside this
repository), `getsigningtime` returns `ISC_R_NOTFOUND` when all heaps are
empty, and otherwise `ISC_R_SUCCESS` binding a header that no header in
any heap strictly precedes in the `sooner` order, namely the root of the
first bucket attaining the minimum (ties broken by bucket scan order). -/
theorem getsigningtime_minimum (heaps : List (List ResignHeader))
    (hinv : ∀ hp ∈ heaps, ∀ r, hp.head? = some r →
      ∀ x ∈ hp, resign_sooner x r = false) :
    ((∀ hp ∈ heaps, hp = []) →
      getsigningtime resign_sooner heaps = (.notfound, none)) ∧
    (∀ h, getsigningtime resign_sooner heaps = (.success, some h) →
      (∀ hp ∈ heaps, ∀ x ∈ hp, resign_sooner x h = false) ∧
      ∃ u v, heapRoots heaps = u ++ h :: v ∧
        ∀ x ∈ u, resign_sooner h x = true) ∧
    ((∃ hp, hp ∈ heaps ∧ hp ≠ []) →
      ∃ h, getsigningtime resign_sooner heaps = (.success, some h)) := by
  refine ⟨?_, ?_, ?_⟩
  · intro hall
    unfold getsigningtime
    rw [getsigningtime_scan_eq_scanR, heapRoots_nil_of_all_nil hall]
    rfl
  · intro h hres
    unfold getsigningtime at hres
    rw [getsigningtime_scan_eq_scanR] at hres
    cases hroots : heapRoots heaps with
    | nil =>
      rw [hroots] at hres
      dsimp only [scanR] at hres
      have hfst : Res.notfound = Res.success := congrArg Prod.fst hres
      exact absurd hfst (by decide)
    | cons r rest =>
      rw [hroots] at hres
      dsimp only [scanR] at hres
      obtain ⟨h', hss⟩ := scanR_isSome resign_sooner rest r
      rw [hss] at hres
      dsimp only at hres
      have hsnd := congrArg Prod.snd hres
      dsimp only at hsnd
      have hh : h' = h := by injection hsnd
      subst hh
      obtain ⟨hmem, hrh, hall⟩ := scanR_min rest r h' hss
      constructor
      · intro hp hhp x hx
        cases hp with
        | nil => cases hx
        | cons y ys =>
          have hy : y ∈ heapRoots heaps := heapRoots_mem hhp rfl
          have hyh : resign_sooner y h' = false := by
            rw [hroots] at hy
            rcases List.mem_cons.mp hy with he | he
            · rw [he]; exact hrh
            · exact hall y he
          have hxy : resign_sooner x y = false := hinv (y :: ys) hhp y rfl x hx
          exact rs_nlt_of_nlt_of_nlt hyh hxy
      · rcases scanR_first rest r h' hss with he | ⟨u, v, hequ, hhb, hu⟩
        · exact ⟨[], rest, by simp [he], by intro x hx; cases hx⟩
        · refine ⟨r :: u, v, by rw [hequ]; simp, ?_⟩
          intro x hx
          rcases List.mem_cons.mp hx with he | he
          · rw [he]; exact hhb
          · exact hu x he
  · intro hex
    obtain ⟨hp, hhp, hne⟩ := hex
    unfold getsigningtime
    rw [getsigningtime_scan_eq_scanR]
    have hr := heapRoots_ne_nil hhp hne
    cases hroots : heapRoots heaps with
    | nil => exact absurd hroots hr
    | cons r rest =>
      dsimp only [scanR]
      obtain ⟨h, hss⟩ := scanR_isSome resign_sooner rest r
      refine ⟨h, ?_⟩
      rw [hss]

/-- Witness for C8: two singleton heaps with keys `(5,1)` and `(5,0)`;
`getsigningtime` returns the `(5,0)` root, which nothing precedes. -/
theorem getsigningtime_minimum_witness :
    getsigningtime resign_sooner
        [[⟨5, 1, 1, true, []⟩], [⟨5, 0, 2, true, []⟩]] =
      (.success, some ⟨5, 0, 2, true, []⟩) ∧
    (∀ hp ∈ [[(⟨5, 1, 1, true, []⟩ : ResignHeader)], [⟨5, 0, 2, true, []⟩]],
      ∀ x ∈ hp, resign_sooner x ⟨5, 0, 2, true, []⟩ = false) ∧
    ∃ u v, heapRoots [[(⟨5, 1, 1, true, []⟩ : ResignHeader)],
        [⟨5, 0, 2, true, []⟩]] = u ++ ⟨5, 0, 2, true, []⟩ :: v ∧
      ∀ x ∈ u, resign_sooner (⟨5, 0, 2, true, []⟩ : ResignHeader) x = true :=
  have hinv : ∀ hp ∈ [[(⟨5, 1, 1, true, []⟩ : ResignHeader)],
      [⟨5, 0, 2, true, []⟩]], ∀ r, hp.head? = some r →
      ∀ x ∈ hp, resign_sooner x r = false := by
    intro hp hhp r hr x hx
    rcases List.mem_cons.mp hhp with he | he
    · subst he
      have hre : (⟨5, 1, 1, true, []⟩ : ResignHeader) = r := by injection hr
      have hxe : x = ⟨5, 1, 1, true, []⟩ := by simpa using hx
      rw [← hre, hxe]
      decide
    · rcases List.mem_cons.mp he with he2 | he2
      · subst he2
        have hre : (⟨5, 0, 2, true, []⟩ : ResignHeader) = r := by injection hr
        have hxe : x = ⟨5, 0, 2, true, []⟩ := by simpa using hx
        rw [← hre, hxe]
        decide
      · cases he2
  have hmin := (getsigningtime_minimum
      [[⟨5, 1, 1, true, []⟩], [⟨5, 0, 2, true, []⟩]] hinv).2.1
      ⟨5, 0, 2, true, []⟩ (by decide)
  ⟨by decide, hmin.1, hmin.2⟩

/-! ### Glue cache (`addglue`) -/

/-- A cloned rdataset in a glue entry; `required` models
`DNS_RDATASETATTR_REQUIRED` (in-bailiwick glue), `data` abstracts the
rdata bytes. -/
structure GlueRdataset where
  data : Nat
  required : Bool
deriving DecidableEq, Repr

/-- One glue entry (`dns_glue_t`): the owner name plus up to four
rdatasets (A, RRSIG(A), AAAA, RRSIG(AAAA)). -/
structure GlueEntry where
  name : Name
  rdataset_a : Option GlueRdataset := none
  sigrdataset_a : Option GlueRdataset := none
  rdataset_aaaa : Option GlueRdataset := none
  sigrdataset_aaaa : Option GlueRdataset := none
deriving DecidableEq, Repr

/-- A name attached to the message's ADDITIONAL section with its rdataset
list. -/
structure MsgName where
  name : Name
  rdatasets : List GlueRdataset
deriving DecidableEq, Repr

/-- `IS_REQUIRED_GLUE(r)`. -/
def IS_REQUIRED_GLUE (r : GlueRdataset) : Bool := r.required

/-- `addglue_to_message`: for each glue entry, append a new name carrying
clones of the entry's rdatasets (in A, RRSIG(A), AAAA, RRSIG(AAAA) order)
to the ADDITIONAL section; if any required glue was cloned, move that name
to the front of the section. -/
def addglue_to_message : List GlueEntry → List MsgName → List MsgName
  | [], msg => msg
  | ge :: rest, msg =>
    let rds := [ge.rdataset_a, ge.sigrdataset_a, ge.rdataset_aaaa,
      ge.sigrdataset_aaaa].filterMap id
    let prepend_name :=
      (match ge.rdataset_a with
       | some r => IS_REQUIRED_GLUE r
       | none => false) ||
      (match ge.rdataset_aaaa with
       | some r => IS_REQUIRED_GLUE r
       | none => false)
    addglue_to_message rest
      (if prepend_name then (⟨ge.name, rds⟩ : MsgName) :: msg
       else msg ++ [⟨ge.name, rds⟩])

/-- The atomically published `header.glue_list`: `unset` is the null
pointer ("not yet computed"), `absent` is the `(void *)-1` sentinel
("computed — no glue"), `present` is a computed glue chain. -/
inductive GlueList where
  | unset
  | absent
  | present (l : List GlueEntry)
deriving DecidableEq, Repr

/-- `addglue(db, version, rdataset, msg)` on one NS header.
`newglue_result` stands for `newglue(qpdb, version, node, rdataset)`:
within a fixed version it is a pure function of the database, so it is a
fixed parameter here (`none` = no glue found).  Returns the published
`glue_list`, the message's ADDITIONAL section, whether glue was computed
on this call, and the result code. -/
def addglue (newglue_result : Option (List GlueEntry)) (glue_list : GlueList)
    (msg : List MsgName) : GlueList × List MsgName × Bool × Res :=
  match glue_list with
  | .unset =>
    match newglue_result with
    | none => (.absent, msg, true, .success)
    | some l => (.present l, addglue_to_message l msg, true, .success)
  | .absent => (.absent, msg, false, .success)
  | .present l => (.present l, addglue_to_message l msg, false, .success)

/-- C9: glue cache idempotence.  The first `addglue` call computes and
publishes the glue list (or the "no glue" sentinel, in which case nothing
is added to the message); every later call in the version reuses the
published value without recomputation and produces the identical
additional section; both calls return `ISC_R_SUCCESS`. -/
theorem addglue_idempotent (ng : Option (List GlueEntry))
    (msg : List MsgName) :
    (addglue ng (addglue ng .unset msg).1 msg).1 =
      (addglue ng .unset msg).1 ∧
    (addglue ng (addglue ng .unset msg).1 msg).2.1 =
      (addglue ng .unset msg).2.1 ∧
    (addglue ng (addglue ng .unset msg).1 msg).2.2.1 = false ∧
    (addglue ng .unset msg).2.2.1 = true ∧
    (ng = none → (addglue ng .unset msg).2.1 = msg) ∧
    (addglue ng .unset msg).2.2.2 = .success ∧
    (addglue ng (addglue ng .unset msg).1 msg).2.2.2 = .success := by
  cases ng <;> simp [addglue]

/-- Witness for C9: with no glue in the zone, the second call does not
recompute and the sentinel call adds nothing to the message. -/
theorem addglue_idempotent_witness :
    (addglue none (addglue none .unset ([] : List MsgName)).1 []).2.2.1 =
      false ∧
    (addglue none .unset ([] : List MsgName)).2.1 = [] :=
  ⟨(addglue_idempotent none []).2.2.1,
   (addglue_idempotent none []).2.2.2.2.1 rfl⟩

/-! ### `getnsec3parameters` -/

/-- The version fields read by `getnsec3parameters`
(`dns_qpdb_version_t`). -/
structure DbVersion where
  havensec3 : Bool
  hash : Nat := 0
  flags : Nat := 0
  iterations : Nat := 0
  salt : List Nat := []
  salt_length : Nat := 0
deriving DecidableEq, Repr

/-- `getnsec3parameters(db, version, hash, flags, iterations, salt,
salt_length)`: a null `version` means the current version; each output
pointer is modelled as `Option` contents (`none` = null pointer); the salt
buffer is written only when both `salt` and `salt_length` are non-null. -/
def getnsec3parameters (current : DbVersion) (version : Option DbVersion)
    (hash : Option Nat) (flags : Option Nat) (iterations : Option Nat)
    (salt : Option (List Nat)) (salt_length : Option Nat) :
    Res × Option Nat × Option Nat × Option Nat × Option (List Nat) ×
      Option Nat :=
  let rbtversion := version.getD current
  if rbtversion.havensec3 then
    (.success,
     hash.map (fun _ => rbtversion.hash),
     flags.map (fun _ => rbtversion.flags),
     iterations.map (fun _ => rbtversion.iterations),
     (match salt, salt_length with
      | some _, some _ => some rbtversion.salt
      | s, _ => s),
     salt_length.map (fun _ => rbtversion.salt_length))
  else (.notfound, hash, flags, iterations, salt, salt_length)

/-- C10: when the selected version (the current one if `version` is null)
has `havensec3 = false`, `getnsec3parameters` returns `ISC_R_NOTFOUND` and
writes none of the caller's output locations. -/
theorem getnsec3parameters_notfound_frame (current : DbVersion)
    (version : Option DbVersion) (hash flags iterations : Option Nat)
    (salt : Option (List Nat)) (salt_length : Option Nat)
    (hn : (version.getD current).havensec3 = false) :
    getnsec3parameters current version hash flags iterations salt
        salt_length =
      (.notfound, hash, flags, iterations, salt, salt_length) := by
  unfold getnsec3parameters
  dsimp only
  rw [if_neg (by rw [hn]; simp)]

/-- Witness for C10: a database whose current version has no NSEC3 chain,
queried with `version = null` and non-null output pointers. -/
theorem getnsec3parameters_notfound_frame_witness :
    getnsec3parameters ⟨false, 0, 0, 0, [], 0⟩ none (some 1) (some 2)
        (some 3) (some [4]) (some 5) =
      (.notfound, some 1, some 2, some 3, some [4], some 5) :=
  getnsec3parameters_notfound_frame ⟨false, 0, 0, 0, [], 0⟩ none (some 1)
    (some 2) (some 3) (some [4]) (some 5) rfl

/-! ### The loader (`loading_addrdataset`) -/

def DNS_DB_NSEC_NORMAL : Nat := 0
def DNS_DB_NSEC_NSEC : Nat := 1
def DNS_DB_NSEC_HAS_NSEC : Nat := 2
def DNS_DB_NSEC_NSEC3 : Nat := 3

/-- A node as the loader sees it: name, the `wild` / `find_callback` bits,
the NSEC kind and the header list. -/
structure LoadNode where
  name : Name
  wild : Bool := false
  find_callback : Bool := false
  nsec : Nat := DNS_DB_NSEC_NORMAL
  headers : List SlabHeader := []
deriving DecidableEq, Repr

/-- The database state the loader mutates: the origin, the stub flag and
the three tries. -/
structure LoadDB where
  origin : Name
  stub : Bool := false
  tree : List LoadNode := []
  nsectree : List LoadNode := []
  nsec3tree : List LoadNode := []
deriving DecidableEq, Repr

/-- `dns_qp_getname`: exact-name lookup in a trie. -/
def findNode : List LoadNode → Name → Option LoadNode
  | [], _ => none
  | n :: rest, nm => if n.name = nm then some n else findNode rest nm

/-- The get-or-insert pattern (`dns_qp_getname` + `dns_qpdata_create` +
`dns_qp_insert`): a fresh node starts with no data. -/
def getOrCreate (tree : List LoadNode) (nm : Name) : List LoadNode :=
  match findNode tree nm with
  | some _ => tree
  | none => tree ++ [{ name := nm }]

/-- In-place node mutation (the loader holds the node pointer). -/
def updNode (tree : List LoadNode) (nm : Name) (f : LoadNode → LoadNode) :
    List LoadNode :=
  tree.map (fun n => if n.name = nm then f n else n)

/-- `dns_name_iswildcard`: the leftmost label is `*`. -/
def dns_name_iswildcard (nm : Name) : Bool := nm.head? = some "*"

/-- `dns__qpzone_wildcardmagic`: get or create the wildcard's parent
(`name` minus its leftmost label), set `nsec = NORMAL`,
`find_callback = 1` and `wild = 1` on it. -/
def wildcardmagic (db : LoadDB) (name : Name) : LoadDB :=
  let foundname := name.drop 1
  let tree := updNode (getOrCreate db.tree foundname) foundname
    (fun n => { n with nsec := DNS_DB_NSEC_NORMAL, find_callback := true, wild := true })
  { db with tree := tree }

/-- One iteration of the `dns__qpzone_addwildcards` loop at label count
`i`: when the last `i` labels of `name` form a wildcard, apply
`wildcardmagic` to them and get-or-create the full `name`, marking it
`NSEC_NORMAL`. -/
def addwildcards_step (name : Name) (n : Nat) (db : LoadDB) (i : Nat) :
    LoadDB :=
  let foundname := name.drop (n - i)
  if dns_name_iswildcard foundname then
    let db := wildcardmagic db foundname
    let tree := updNode (getOrCreate db.tree name) name
      (fun nd => { nd with nsec := DNS_DB_NSEC_NORMAL })
    { db with tree := tree }
  else db

/-- `dns__qpzone_addwildcards`: run the loop for every label count from
one more than the origin's up to (excluding) the full name's. -/
def addwildcards (db : LoadDB) (name : Name) : LoadDB :=
  let n := name.length
  let l := db.origin.length
  (List.range' (l + 1) (n - (l + 1))).foldl (addwildcards_step name n) db

/-- `loadnode`: get or create the main-tree node; if it already carries
`HAS_NSEC`, or no NSEC mirror is wanted, stop; otherwise mirror the node
into the auxiliary NSEC tree (log-and-continue when it is already there)
and mark the kinds. -/
def loadnode (db : LoadDB) (name : Name) (hasnsec : Bool) : LoadDB :=
  let skip : Bool :=
    match findNode db.tree name with
    | some nd => decide (nd.nsec = DNS_DB_NSEC_HAS_NSEC)
    | none => false
  let tree := getOrCreate db.tree name
  if skip = true ∨ hasnsec = false then { db with tree := tree }
  else
    let tree2 := updNode tree name
      (fun n => { n with nsec := DNS_DB_NSEC_HAS_NSEC })
    match findNode db.nsectree name with
    | some _ => { db with tree := tree2 }
    | none =>
      { db with tree := tree2,
                nsectree := db.nsectree ++
                  [{ name := name, nsec := DNS_DB_NSEC_NSEC }] }

/-- `delegating_type`: DNAME, or NS away from the origin (or in a stub). -/
def delegating_type (db : LoadDB) (name : Name) (rtype : Rdatatype) : Prop :=
  rtype = dns_rdatatype_dname ∨
    (rtype = dns_rdatatype_ns ∧ (name ≠ db.origin ∨ db.stub = true))

instance (db : LoadDB) (name : Name) (rtype : Rdatatype) :
    Decidable (delegating_type db name rtype) := by
  unfold delegating_type; infer_instance

/-- Modelled from the spec: `dns_rdataslab_fromrdataset` and
`dns__qpdb_add` are outside this repository; per the spec the record-set
slab is "built and added to the node under serial 1 in MERGE mode",
modelled as prepending a serial-1 header of the set's type pair. -/
def load_add_header (tree : List LoadNode) (name : Name)
    (rtype covers : Rdatatype) : List LoadNode :=
  updNode tree name (fun n =>
    { n with headers := (⟨⟨rtype, covers⟩, 1, false, false, false, true⟩ :
        SlabHeader) :: n.headers })

/-- The tail of `loading_addrdataset` after the rejection checks: NSEC3
sets go to the `nsec3` tree, NSEC sets load a mirrored node, everything
else a plain node; the slab is added and `find_callback` set for
delegating types. -/
def loading_add_rest (db : LoadDB) (name : Name) (rtype covers : Rdatatype) :
    Res × LoadDB :=
  if rtype = dns_rdatatype_nsec3 ∨ covers = dns_rdatatype_nsec3 then
    let t := updNode (getOrCreate db.nsec3tree name) name
      (fun n => { n with nsec := DNS_DB_NSEC_NSEC3 })
    (.success, { db with nsec3tree := load_add_header t name rtype covers })
  else
    let db :=
      if rtype = dns_rdatatype_nsec then loadnode db name true
      else loadnode db name false
    let tree := load_add_header db.tree name rtype covers
    let tree :=
      if delegating_type db name rtype then
        updNode tree name (fun n => { n with find_callback := true })
      else tree
    (.success, { db with tree := tree })

/-- `loading_addrdataset(loadctx, name, rdataset)`: the SOA apex check,
the wildcard bookkeeping, the wildcard-owner rejections, then the load. -/
def loading_addrdataset (db : LoadDB) (name : Name)
    (rtype covers : Rdatatype) : Res × LoadDB :=
  if rtype = dns_rdatatype_soa ∧ name ≠ db.origin then (.notzonetop, db)
  else
    let db :=
      if rtype ≠ dns_rdatatype_nsec3 ∧ covers ≠ dns_rdatatype_nsec3 then
        addwildcards db name
      else db
    if dns_name_iswildcard name then
      if rtype = dns_rdatatype_ns then (.invalidns, db)
      else if rtype = dns_rdatatype_nsec3 then (.invalidnsec3, db)
      else loading_add_rest (wildcardmagic db name) name rtype covers
    else loading_add_rest db name rtype covers

/-- The header list at a name in a tree (empty if the node is absent). -/
def tree_headers (tree : List LoadNode) (nm : Name) : List SlabHeader :=
  match findNode tree nm with
  | some n => n.headers
  | none => []

/-- The loader bookkeeping (`addwildcards`, `wildcardmagic`) touches node
flags and creates empty nodes, but adds no header anywhere and leaves the
auxiliary trees, the origin and the stub flag alone. -/
def load_pres (db db' : LoadDB) : Prop :=
  (∀ nm, tree_headers db'.tree nm = tree_headers db.tree nm) ∧
  db'.nsectree = db.nsectree ∧ db'.nsec3tree = db.nsec3tree ∧
  db'.origin = db.origin ∧ db'.stub = db.stub

lemma load_pres_refl (db : LoadDB) : load_pres db db :=
  ⟨fun _ => rfl, rfl, rfl, rfl, rfl⟩

lemma load_pres_trans {a b c : LoadDB} (h1 : load_pres a b)
    (h2 : load_pres b c) : load_pres a c :=
  ⟨fun nm => (h2.1 nm).trans (h1.1 nm), h2.2.1.trans h1.2.1,
   h2.2.2.1.trans h1.2.2.1, h2.2.2.2.1.trans h1.2.2.2.1,
   h2.2.2.2.2.trans h1.2.2.2.2⟩

lemma tree_headers_updNode (tree : List LoadNode) (nm0 : Name)
    (f : LoadNode → LoadNode) (hh : ∀ n, (f n).headers = n.headers)
    (hn : ∀ n, (f n).name = n.name) (nm : Name) :
    tree_headers (updNode tree nm0 f) nm = tree_headers tree nm := by
  induction tree with
  | nil => rfl
  | cons n rest ih =>
    simp only [updNode, List.map] at ih ⊢
    by_cases h0 : n.name = nm0
    · rw [if_pos h0]
      simp only [tree_headers, findNode]
      by_cases he : n.name = nm
      · have he' : (f n).name = nm := by rw [hn n]; exact he
        rw [if_pos he', if_pos he]
        exact hh n
      · have he' : ¬(f n).name = nm := by rw [hn n]; exact he
        rw [if_neg he', if_neg he]
        exact ih
    · rw [if_neg h0]
      simp only [tree_headers, findNode]
      by_cases he : n.name = nm
      · rw [if_pos he, if_pos he]
      · rw [if_neg he, if_neg he]
        exact ih

lemma findNode_append (t1 t2 : List LoadNode) (nm : Name) :
    findNode (t1 ++ t2) nm =
      match findNode t1 nm with
      | some n => some n
      | none => findNode t2 nm := by
  induction t1 with
  | nil => rfl
  | cons n rest ih =>
    simp only [List.cons_append, findNode]
    by_cases he : n.name = nm
    · rw [if_pos he, if_pos he]
    · rw [if_neg he, if_neg he]
      exact ih

lemma tree_headers_getOrCreate (tree : List LoadNode) (nm0 nm : Name) :
    tree_headers (getOrCreate tree nm0) nm = tree_headers tree nm := by
  unfold getOrCreate
  cases hf : findNode tree nm0 with
  | some n => rfl
  | none =>
    simp only [tree_headers, findNode_append]
    cases hfn : findNode tree nm with
    | some n => rfl
    | none =>
      simp only [findNode]
      by_cases he : nm0 = nm
      · rw [if_pos he]
      · rw [if_neg he]

lemma wildcardmagic_pres (db : LoadDB) (name : Name) :
    load_pres db (wildcardmagic db name) := by
  refine ⟨fun nm => ?_, rfl, rfl, rfl, rfl⟩
  simp only [wildcardmagic]
  have h1 := tree_headers_updNode (getOrCreate db.tree (name.drop 1))
    (name.drop 1)
    (fun n => { n with nsec := DNS_DB_NSEC_NORMAL, find_callback := true, wild := true })
    (fun n => rfl) (fun n => rfl) nm
  rw [h1, tree_headers_getOrCreate]

lemma addwildcards_step_pres (name : Name) (n : Nat) (db : LoadDB)
    (i : Nat) : load_pres db (addwildcards_step name n db i) := by
  simp only [addwildcards_step]
  by_cases hw : dns_name_iswildcard (name.drop (n - i))
  · rw [if_pos hw]
    refine load_pres_trans (wildcardmagic_pres db (name.drop (n - i)))
      ⟨fun nm => ?_, rfl, rfl, rfl, rfl⟩
    dsimp only
    have h2 := tree_headers_updNode
      (getOrCreate (wildcardmagic db (name.drop (n - i))).tree name) name
      (fun nd => { nd with nsec := DNS_DB_NSEC_NORMAL })
      (fun nd => rfl) (fun nd => rfl) nm
    rw [h2, tree_headers_getOrCreate]
  · rw [if_neg hw]
    exact load_pres_refl db

lemma addwildcards_foldl_pres (name : Name) (n : Nat) :
    ∀ (l : List Nat) (db : LoadDB),
      load_pres db (l.foldl (addwildcards_step name n) db)
  | [], db => load_pres_refl db
  | i :: l, db =>
    load_pres_trans (addwildcards_step_pres name n db i)
      (addwildcards_foldl_pres name n l (addwildcards_step name n db i))

lemma addwildcards_pres (db : LoadDB) (name : Name) :
    load_pres db (addwildcards db name) := by
  simp only [addwildcards]
  exact addwildcards_foldl_pres name name.length _ db

/-- C7: `loading_addrdataset` rejects an SOA set whose owner is not the
origin with NOTZONETOP, an NS set at a wildcard owner with INVALIDNS and
an NSEC3 set at a wildcard owner with INVALIDNSEC3; in every such case no
header is added to any node of any of the three trees (for SOA and NSEC3
the database is returned exactly unchanged; before the NS rejection the
wildcard bookkeeping may create empty nodes, but adds no headers and
leaves the auxiliary trees untouched). -/
theorem loading_addrdataset_rejections (db : LoadDB) (name : Name)
    (rtype covers : Rdatatype) :
    (rtype = dns_rdatatype_soa → name ≠ db.origin →
      loading_addrdataset db name rtype covers = (.notzonetop, db)) ∧
    (dns_name_iswildcard name = true → rtype = dns_rdatatype_ns →
      (loading_addrdataset db name rtype covers).1 = .invalidns ∧
      (∀ nm, tree_headers (loading_addrdataset db name rtype covers).2.tree nm
        = tree_headers db.tree nm) ∧
      (loading_addrdataset db name rtype covers).2.nsectree = db.nsectree ∧
      (loading_addrdataset db name rtype covers).2.nsec3tree
        = db.nsec3tree) ∧
    (dns_name_iswildcard name = true → rtype = dns_rdatatype_nsec3 →
      loading_addrdataset db name rtype covers = (.invalidnsec3, db)) := by
  refine ⟨fun hsoa hne => ?_, fun hwild hns => ?_, fun hwild hn3 => ?_⟩
  · simp only [loading_addrdataset]
    rw [if_pos ⟨hsoa, hne⟩]
  · have hc1 : ¬(rtype = dns_rdatatype_soa ∧ name ≠ db.origin) := by
      intro hc
      rw [hns] at hc
      exact absurd hc.1 (by decide)
    by_cases hcov : covers = dns_rdatatype_nsec3
    · have hc2 : ¬(rtype ≠ dns_rdatatype_nsec3 ∧
          covers ≠ dns_rdatatype_nsec3) := fun hc => hc.2 hcov
      simp only [loading_addrdataset]
      rw [if_neg hc1, if_neg hc2, if_pos hwild, if_pos hns]
      exact ⟨rfl, fun nm => rfl, rfl, rfl⟩
    · have hc2 : rtype ≠ dns_rdatatype_nsec3 ∧
          covers ≠ dns_rdatatype_nsec3 := by
        constructor
        · rw [hns]; decide
        · exact hcov
      have hp := addwildcards_pres db name
      simp only [loading_addrdataset]
      rw [if_neg hc1, if_pos hc2, if_pos hwild, if_pos hns]
      exact ⟨rfl, hp.1, hp.2.1, hp.2.2.1⟩
  · have hc1 : ¬(rtype = dns_rdatatype_soa ∧ name ≠ db.origin) := by
      intro hc
      rw [hn3] at hc
      exact absurd hc.1 (by decide)
    have hc2 : ¬(rtype ≠ dns_rdatatype_nsec3 ∧
        covers ≠ dns_rdatatype_nsec3) := fun hc => hc.1 hn3
    have hcns : ¬rtype = dns_rdatatype_ns := by rw [hn3]; decide
    simp only [loading_addrdataset]
    rw [if_neg hc1, if_neg hc2, if_pos hwild, if_neg hcns, if_pos hn3]

/-- Witness for C7 at a concrete database with origin `example`: an
off-apex SOA, a wildcard NS and a wildcard NSEC3 are each rejected with
the right code and without adding headers. -/
theorem loading_addrdataset_rejections_witness :
    loading_addrdataset { origin := ["example"] } ["sub", "example"]
        dns_rdatatype_soa 0 = (.notzonetop, { origin := ["example"] }) ∧
    (loading_addrdataset { origin := ["example"] } ["*", "example"]
        dns_rdatatype_ns 0).1 = .invalidns ∧
    tree_headers (loading_addrdataset { origin := ["example"] }
        ["*", "example"] dns_rdatatype_ns 0).2.tree ["*", "example"]
      = tree_headers (({ origin := ["example"] } : LoadDB)).tree
          ["*", "example"] ∧
    loading_addrdataset { origin := ["example"] } ["*", "example"]
        dns_rdatatype_nsec3 0
      = (.invalidnsec3, { origin := ["example"] }) := by
  refine ⟨?_, ?_, ?_, ?_⟩
  · exact (loading_addrdataset_rejections { origin := ["example"] }
      ["sub", "example"] dns_rdatatype_soa 0).1 rfl (by decide)
  · exact ((loading_addrdataset_rejections { origin := ["example"] }
      ["*", "example"] dns_rdatatype_ns 0).2.1 (by decide) rfl).1
  · exact (((loading_addrdataset_rejections { origin := ["example"] }
      ["*", "example"] dns_rdatatype_ns 0).2.1 (by decide) rfl).2.1
        ["*", "example"])
  · exact (loading_addrdataset_rejections { origin := ["example"] }
      ["*", "example"] dns_rdatatype_nsec3 0).2.2 (by decide) rfl

/-! ### Wildcard blocking (`step`, `activeempty`, `wildcard_blocked`,
`find_wildcard`) -/

/-- A node of the main tree as the wildcard machinery sees it: its name,
the `wild` bit and its header list (`node->data`). The tree is the list
of nodes in iterator (DNSSEC) order; iterator positions are indices. -/
structure TreeNode where
  name : Name
  wild : Bool := false
  data : List SlabHeader := []
deriving DecidableEq, Repr

/-- `dns_wildcardname`'s single label. -/
def wildLbl : String := "*"

/-- The header scan inside `step`: a header with
`serial <= search->serial && !IGNORE && EXISTS` (no ANCIENT check). -/
def step_header (s : Nat) (h : SlabHeader) : Bool :=
  decide (h.serial ≤ s) && !h.ignore && !h.nonexistent

/-- The header scan in `find_wildcard`'s node-activity tests, which also
requires `!ANCIENT(header)`. -/
def fw_header (s : Nat) (h : SlabHeader) : Bool :=
  decide (h.serial ≤ s) && !h.ignore && !h.nonexistent && !h.ancient

/-- `step(search, iter, BACK, prev)` starting at index `i`: walk toward
index 0 until a node carries a visible header; return its name. -/
def step_back (tree : List TreeNode) (s : Nat) (i : Nat) : Option Name :=
  match ((tree.take (i + 1)).reverse.find? (fun n => n.data.any (step_header s))) with
  | some n => some n.name
  | none => none

/-- `step(search, iter, FORWARD, next)` starting at index `i`: walk toward
the end until a node carries a visible header; return its name. -/
def step_forward (tree : List TreeNode) (s : Nat) (i : Nat) : Option Name :=
  match ((tree.drop i).find? (fun n => n.data.any (step_header s))) with
  | some n => some n.name
  | none => none

/-- `dns_qp_lookup` exact match, also yielding the node's iterator
position (the `witer` the caller receives). -/
def qp_lookup_from : List TreeNode → Name → Nat → Option (Nat × TreeNode)
  | [], _, _ => none
  | n :: rest, nm, i =>
    if n.name = nm then some (i, n) else qp_lookup_from rest nm (i + 1)

def qp_lookup (tree : List TreeNode) (nm : Name) : Option (Nat × TreeNode) :=
  qp_lookup_from tree nm 0

/-- `activeempty(search, witer, current)`: advance the iterator past the
node at `wpos`, `step` forward to the next name with data and test
whether it is a subdomain of `current` (`current` a suffix of it). -/
def activeempty (tree : List TreeNode) (s : Nat) (wpos : Nat)
    (current : Name) : Bool :=
  if wpos + 1 < tree.length then
    match step_forward tree s (wpos + 1) with
    | some nx => current.isSuffixOf nx
    | none => false
  else false

/-- `check_prev && dns_name_issubdomain(prev, &rname)` (and likewise for
`next`): the found neighbour, when there is one, is a subdomain of
`rname`, i.e. `rname` is a suffix of it. -/
def name_sub (base : Option Name) (rname : Name) : Bool :=
  match base with
  | some b => rname.isSuffixOf b
  | none => false

/-- The do-while loop of `wildcard_blocked`: test `rname`, then strip its
leftmost label and repeat while the stripped name differs from `tname`.
(The loop in C assumes `tname` is a proper suffix of the initial `rname`;
on the empty name, where C's label arithmetic cannot go further, we stop
with `false`.) -/
def blocked_loop (prev nxt : Option Name) (tname : Name) : Name → Bool
  | [] => name_sub prev [] || name_sub nxt []
  | l :: rest =>
    if name_sub prev (l :: rest) || name_sub nxt (l :: rest) then true
    else if rest = tname then false
    else blocked_loop prev nxt tname rest

/-- `wildcard_blocked(search, qname, wname)`: find the nearest
predecessor (stepping back from the search position `pos`) and successor
(stepping forward from `pos + 1`) with data; with `tname` = `wname` minus
its wildcard label, run the stripping loop over `qname`. -/
def wildcard_blocked (tree : List TreeNode) (s : Nat) (pos : Nat)
    (qname wname : Name) : Bool :=
  let prev := step_back tree s pos
  let nxt := if pos + 1 < tree.length then step_forward tree s (pos + 1)
             else none
  if prev.isNone && nxt.isNone then false
  else blocked_loop prev nxt (wname.drop 1) qname

/-- The loop of `find_wildcard` over the search chain, deepest ancestor
first, threading the `result` variable (initially NOTFOUND; a failed
wildcard lookup leaves NOTFOUND — the exact-match model does not
distinguish DNS_R_PARTIALMATCH from ISC_R_NOTFOUND). At each level: if
the node's `wild` bit is set, look up `*.` + its name; if that wildcard
node is active or an active empty non-terminal, a blocked wildcard
returns NOTFOUND at once, an unblocked one SUCCESS with the node;
otherwise an active level node stops the search with NOTFOUND. -/
def find_wildcard_loop (tree : List TreeNode) (s pos : Nat) (qname : Name) :
    Res → List TreeNode → Res × Option Name
  | res, [] => (res, none)
  | res, node :: rest =>
    if node.wild then
      match qp_lookup tree (wildLbl :: node.name) with
      | some (wpos, wnode) =>
        if wnode.data.any (fw_header s) ||
            activeempty tree s wpos (wildLbl :: node.name) then
          if wildcard_blocked tree s pos qname (wildLbl :: node.name) then
            (Res.notfound, none)
          else (Res.success, some (wildLbl :: node.name))
        else if node.data.any (fw_header s) then (Res.notfound, none)
        else find_wildcard_loop tree s pos qname Res.success rest
      | none =>
        if node.data.any (fw_header s) then (Res.notfound, none)
        else find_wildcard_loop tree s pos qname Res.notfound rest
    else
      if node.data.any (fw_header s) then (Res.notfound, none)
      else find_wildcard_loop tree s pos qname res rest

/-- `find_wildcard(search, nodep, qname)`: run the chain loop with the
initial `result = ISC_R_NOTFOUND`. -/
def find_wildcard (tree : List TreeNode) (s pos : Nat) (qname : Name)
    (chain : List TreeNode) : Res × Option Name :=
  find_wildcard_loop tree s pos qname Res.notfound chain

lemma blocked_loop_hits (prev nxt : Option Name) (tname : Name) :
    ∀ (rname : Name) (k : Nat),
      tname.isSuffixOf (rname.drop k) = true →
      rname.drop k ≠ tname →
      (name_sub prev (rname.drop k) || name_sub nxt (rname.drop k)) = true →
      blocked_loop prev nxt tname rname = true := by
  intro rname
  induction rname with
  | nil =>
    intro k hsuf hne _
    rw [List.drop_nil] at hsuf hne
    exact absurd (List.suffix_nil.mp (List.isSuffixOf_iff_suffix.mp hsuf)).symm hne
  | cons l rest ih =>
    intro k hsuf hne hhit
    cases k with
    | zero =>
      rw [List.drop_zero] at hhit
      simp only [blocked_loop]
      rw [if_pos hhit]
    | succ k' =>
      rw [List.drop_succ_cons] at hsuf hne hhit
      simp only [blocked_loop]
      by_cases hc : (name_sub prev (l :: rest) || name_sub nxt (l :: rest))
        = true
      · rw [if_pos hc]
      · rw [if_neg hc]
        have hlt : tname.length < (rest.drop k').length := by
          have hle := (List.isSuffixOf_iff_suffix.mp hsuf).length_le
          rcases Nat.lt_or_ge tname.length (rest.drop k').length with h | h
          · exact h
          · exact absurd ((List.isSuffixOf_iff_suffix.mp hsuf).eq_of_length
              (Nat.le_antisymm hle h)) (fun he => hne he.symm)
        have hrt : ¬rest = tname := by
          intro he
          have h2 : (rest.drop k').length ≤ tname.length := by
            rw [← he]
            exact (List.drop_suffix k' rest).length_le
          exact absurd (Nat.lt_of_lt_of_le hlt h2) (Nat.lt_irrefl _)
        rw [if_neg hrt]
        exact ih k' hsuf hne hhit

/-- C4: if the nearest predecessor or successor with data (stepping back
from, or forward past, the search position `pos`) is a subdomain of some
label-suffix `qname.drop k` of the query name lying strictly below the
wildcard's terminal name `node.name`, then `wildcard_blocked` reports
blocking, and `find_wildcard` — at a chain level whose `wild` bit is set
and whose wildcard node exists and is active (or an active empty
non-terminal) — returns ISC_R_NOTFOUND with no node: the wildcard does
not match. -/
theorem wildcard_blocking (tree : List TreeNode) (s pos : Nat)
    (qname : Name) (node : TreeNode) (rest : List TreeNode)
    (wpos : Nat) (wnode : TreeNode) (k : Nat)
    (hwild : node.wild = true)
    (hlook : qp_lookup tree (wildLbl :: node.name) = some (wpos, wnode))
    (hact : wnode.data.any (fw_header s) = true ∨
      activeempty tree s wpos (wildLbl :: node.name) = true)
    (hsuf : node.name.isSuffixOf (qname.drop k) = true)
    (hne : qname.drop k ≠ node.name)
    (hhit : (name_sub (step_back tree s pos) (qname.drop k) ||
      name_sub (if pos + 1 < tree.length then step_forward tree s (pos + 1)
        else none) (qname.drop k)) = true) :
    wildcard_blocked tree s pos qname (wildLbl :: node.name) = true ∧
    find_wildcard tree s pos qname (node :: rest) = (Res.notfound, none) := by
  have hblocked : wildcard_blocked tree s pos qname (wildLbl :: node.name)
      = true := by
    simp only [wildcard_blocked]
    have hnn : ((step_back tree s pos).isNone &&
        (if pos + 1 < tree.length then step_forward tree s (pos + 1)
          else none).isNone) ≠ true := by
      intro hb
      rw [Bool.and_eq_true, Option.isNone_iff_eq_none,
        Option.isNone_iff_eq_none] at hb
      rw [hb.1, hb.2] at hhit
      simp [name_sub] at hhit
    rw [if_neg hnn]
    exact blocked_loop_hits _ _ _ qname k hsuf hne hhit
  refine ⟨hblocked, ?_⟩
  simp only [find_wildcard, find_wildcard_loop]
  rw [if_pos hwild, hlook]
  have hor : (wnode.data.any (fw_header s) ||
      activeempty tree s wpos (wildLbl :: node.name)) = true := by
    rcases hact with h | h
    · rw [h, Bool.true_or]
    · rw [h, Bool.or_true]
  dsimp only
  rw [if_pos hor, if_pos hblocked]

/-- A concrete tree for exercising the wildcard blocking path: the apex
`example` (SOA), the wild-marked empty node `sub.example`, the active
wildcard `*.sub.example`, and the active blocking name
`deep.under.sub.example` — the predecessor of the query
`other.under.sub.example`. -/
def c4tree : List TreeNode :=
  [⟨["example"], false, [⟨⟨6, 0⟩, 1, false, false, false, false⟩]⟩,
   ⟨["sub", "example"], true, []⟩,
   ⟨["*", "sub", "example"], false,
     [⟨⟨1, 0⟩, 1, false, false, false, false⟩]⟩,
   ⟨["deep", "under", "sub", "example"], false,
     [⟨⟨1, 0⟩, 1, false, false, false, false⟩]⟩]

/-- Witness for C4: in `c4tree` at serial 1, the query
`other.under.sub.example` (search position 3, its predecessor) would
match `*.sub.example`, but the active `deep.under.sub.example` is a
subdomain of `under.sub.example`, an ENT strictly between the wildcard
level and the query; `wildcard_blocked` reports blocking and
`find_wildcard` over the chain `[sub.example, example]` returns
NOTFOUND with no node. -/
theorem wildcard_blocking_witness :
    wildcard_blocked c4tree 1 3 ["other", "under", "sub", "example"]
      ["*", "sub", "example"] = true ∧
    find_wildcard c4tree 1 3 ["other", "under", "sub", "example"]
      [⟨["sub", "example"], true, []⟩, ⟨["example"], false,
        [⟨⟨6, 0⟩, 1, false, false, false, false⟩]⟩]
      = (Res.notfound, none) :=
  wildcard_blocking c4tree 1 3 ["other", "under", "sub", "example"]
    ⟨["sub", "example"], true, []⟩
    [⟨["example"], false, [⟨⟨6, 0⟩, 1, false, false, false, false⟩]⟩]
    2 ⟨["*", "sub", "example"], false,
      [⟨⟨1, 0⟩, 1, false, false, false, false⟩]⟩ 1
    rfl (by decide) (Or.inl (by decide)) (by decide) (by decide) (by decide)
